import Mathlib

/-!
Verification of the cr50 I2C TPM driver (src/drivers/i2c/tpm/cr50.c).

The driver is embedded shallowly: the I2C bus is an oracle (`Env`) that
decides, for each bus operation in order (indexed by an operation counter),
whether the operation succeeds and which bytes a read returns.  The driver
state (`St`) carries the elapsed time in milliseconds (advanced by the
`mdelay` calls of the source), the operation counter and a log of all
register-transport operations performed, so that theorems can speak about
which reads and writes a call performed.  Machine bytes are `Nat` values
reduced mod 256 where the source stores them into `uint8_t`.
-/

namespace Cr50

/-- `#define CR50_MAX_BUFSIZE 63` -/
def CR50_MAX_BUFSIZE : Nat := 63

/-- `#define CR50_TIMEOUT_LONG_MS 2000` -/
def CR50_TIMEOUT_LONG_MS : Nat := 2000

/-- `#define CR50_TIMEOUT_SHORT_MS 2` -/
def CR50_TIMEOUT_SHORT_MS : Nat := 2

/-- `#define CR50_DID_VID 0x00281ae0L` -/
def CR50_DID_VID : Nat := 0x00281ae0

/-- Modelled from the spec: `TPM_TIMEOUT` (the per-attempt delay of the
locality wait loop) comes from the driver header `tpm.h`, which is not in
the sources at hand.  The loop comment in the source says the 2000-step
counter realises a 2 s timeout, so the delay is 1 ms per attempt. -/
def TPM_TIMEOUT : Nat := 1

/-- Modelled from the spec: register offsets of the locality-scoped TIS I2C
register map of `tpm.h` (spec section 6).  Access register of locality `l`. -/
def TPM_ACCESS (l : Nat) : Nat := 0x0 + 16 * l

/-- Modelled from the spec: 4-byte status register of locality `l`. -/
def TPM_STS (l : Nat) : Nat := 0x01 + 16 * l

/-- Modelled from the spec: data FIFO register of locality `l`. -/
def TPM_DATA_FIFO (l : Nat) : Nat := 0x05 + 16 * l

/-- Modelled from the spec: identity (DID/VID) register of locality `l`. -/
def TPM_DID_VID (l : Nat) : Nat := 0x06 + 16 * l

/-- Modelled from the spec: access-register bit "register valid". -/
def TPM_ACCESS_VALID : Nat := 0x80

/-- Modelled from the spec: access-register bit "active locality". -/
def TPM_ACCESS_ACTIVE_LOCALITY : Nat := 0x20

/-- Modelled from the spec: access-register bit "request pending". -/
def TPM_ACCESS_REQUEST_PENDING : Nat := 0x04

/-- Modelled from the spec: access-register bit "request use". -/
def TPM_ACCESS_REQUEST_USE : Nat := 0x02

/-- Modelled from the spec: status bit "valid". -/
def TPM_STS_VALID : Nat := 0x80

/-- Modelled from the spec: status bit "command ready". -/
def TPM_STS_COMMAND_READY : Nat := 0x40

/-- Modelled from the spec: status bit "data available". -/
def TPM_STS_DATA_AVAIL : Nat := 0x10

/-- Modelled from the spec: status bit "data expect". -/
def TPM_STS_DATA_EXPECT : Nat := 0x08

/-- Modelled from the spec: status bit "go" (starts command execution). -/
def TPM_STS_GO : Nat := 0x20

/-- Modelled from the spec: TPM response/command header size (10 bytes). -/
def TPM_HEADER_SIZE : Nat := 10

/-- Modelled from the spec: offset of the big-endian 32-bit size field in a
TPM response header (2 bytes of tag come first). -/
def TPM_RSP_SIZE_BYTE : Nat := 2

/-- The `tpm_inf_dev` handle: bus number and chip address (the scratch
buffer of the source only serves to prepend the register address on writes,
which the event log records directly). -/
structure TpmDev where
  bus : Nat
  addr : Nat
deriving DecidableEq

/-- The parts of `tpm_chip` the driver reads or writes:
`chip->vendor.locality` and `chip->is_open`. -/
structure Chip where
  locality : Nat
  is_open : Nat
deriving DecidableEq

/-- One register-transport operation as recorded in the log: a register
read (result `none` when the bus failed) or a register write (with the
success of the bus transaction). -/
inductive Event where
  | readEvt  (reg len : Nat) (result : Option (List Nat))
  | writeEvt (reg : Nat) (data : List Nat) (ok : Bool)
deriving DecidableEq

/-- The bus oracle: for the `idx`-th bus operation it decides whether the
address-select write of a register read goes through, whether the data
read goes through and which bytes it yields, and whether a register write
goes through.  Quantifying over `Env` quantifies over every possible chip
and bus behaviour. -/
structure Env where
  addrWriteOk : Nat → Nat → Bool
  readOk : Nat → Nat → Nat → Bool
  readByte : Nat → Nat → Nat → Nat
  writeOk : Nat → Nat → List Nat → Bool

/-- Driver-visible machine state: elapsed milliseconds, bus-operation
counter and the log of operations performed so far. -/
structure St where
  time : Nat
  ioCount : Nat
  events : List Event
deriving DecidableEq

/-- `mdelay(n)`: advance time by `n` milliseconds. -/
def mdelay (n : Nat) (st : St) : St :=
  { st with time := st.time + n }

/-- The bytes a successful `len`-byte read of register `reg` yields at
operation index `idx` (each byte reduced mod 256 as a `uint8_t`). -/
def readBytes (env : Env) (idx reg len : Nat) : List Nat :=
  (List.range len).map (fun i => env.readByte idx reg i % 256)

/-- `iic_tpm_read(addr, buffer, len)`: fails at once when the configured
chip address is zero; otherwise sends the register-address byte (a bus
write), waits `CR50_TIMEOUT_SHORT_MS`, then reads `len` bytes.  Returns the
bytes read, or `none` for the source's `-1`. -/
def iic_tpm_read (env : Env) (dev : TpmDev) (reg len : Nat) (st : St) :
    Option (List Nat) × St :=
  if dev.addr = 0 then (none, st)
  else
    let idx := st.ioCount
    if env.addrWriteOk idx reg then
      let st1 := mdelay CR50_TIMEOUT_SHORT_MS st
      if env.readOk idx reg len then
        let bytes := readBytes env idx reg len
        (some bytes,
          { st1 with ioCount := idx + 1,
                     events := st1.events ++ [Event.readEvt reg len (some bytes)] })
      else
        (none, { st1 with ioCount := idx + 1,
                          events := st1.events ++ [Event.readEvt reg len none] })
    else
      (none, { st with ioCount := idx + 1,
                       events := st.events ++ [Event.readEvt reg len none] })

/-- `iic_tpm_write(addr, buffer, len)`: fails at once when the configured
address is zero or `len > CR50_MAX_BUFSIZE`; otherwise performs one bus
write of address byte plus data and, on success, waits
`CR50_TIMEOUT_SHORT_MS`.  Returns `true` for the source's `0`. -/
def iic_tpm_write (env : Env) (dev : TpmDev) (reg : Nat) (data : List Nat)
    (st : St) : Bool × St :=
  if dev.addr = 0 then (false, st)
  else if CR50_MAX_BUFSIZE < data.length then (false, st)
  else
    let idx := st.ioCount
    let ok := env.writeOk idx reg data
    let st1 := { st with ioCount := idx + 1,
                         events := st.events ++ [Event.writeEvt reg data ok] }
    if ok then (true, mdelay CR50_TIMEOUT_SHORT_MS st1) else (false, st1)

/-- `check_locality`: read one byte of the access register; the locality is
owned iff both the active-locality and valid bits are set, in which case
`chip->vendor.locality` is recorded and `loc` returned (`none` stands for
the source's `-1`). -/
def check_locality (env : Env) (dev : TpmDev) (chip : Chip) (loc : Nat)
    (st : St) : Option Nat × Chip × St :=
  match iic_tpm_read env dev (TPM_ACCESS loc) 1 st with
  | (none, st1) => (none, chip, st1)
  | (some buf, st1) =>
    if buf.headD 0 &&& (TPM_ACCESS_ACTIVE_LOCALITY ||| TPM_ACCESS_VALID) =
        TPM_ACCESS_ACTIVE_LOCALITY ||| TPM_ACCESS_VALID then
      (some loc, { chip with locality := loc }, st1)
    else
      (none, chip, st1)

/-- `release_locality`: read the access register (returning silently on
read failure); when `force` is set or both the request-pending and valid
bits are set, write the active-locality bit back. -/
def release_locality (env : Env) (dev : TpmDev) (loc : Nat) (force : Bool)
    (st : St) : St :=
  match iic_tpm_read env dev (TPM_ACCESS loc) 1 st with
  | (none, st1) => st1
  | (some buf, st1) =>
    if force = true ∨ buf.headD 0 &&& (TPM_ACCESS_REQUEST_PENDING ||| TPM_ACCESS_VALID) =
        TPM_ACCESS_REQUEST_PENDING ||| TPM_ACCESS_VALID then
      (iic_tpm_write env dev (TPM_ACCESS loc) [TPM_ACCESS_ACTIVE_LOCALITY] st1).2
    else st1

/-- The polling loop of `request_locality`: up to `t` attempts, each a
`check_locality` followed by an `mdelay(TPM_TIMEOUT)` on failure. -/
def reqLoop (env : Env) (dev : TpmDev) (loc : Nat) :
    Nat → Chip → St → Option Nat × Chip × St
  | 0, chip, st => (none, chip, st)
  | t + 1, chip, st =>
    match check_locality env dev chip loc st with
    | (some l, chip1, st1) => (some l, chip1, st1)
    | (none, chip1, st1) => reqLoop env dev loc t chip1 (mdelay TPM_TIMEOUT st1)

/-- `request_locality`: return at once when the locality is already owned;
otherwise write the request-use bit and poll `check_locality` with a
2000-step counter (the source's 2 s timeout). -/
def request_locality (env : Env) (dev : TpmDev) (chip : Chip) (loc : Nat)
    (st : St) : Option Nat × Chip × St :=
  match check_locality env dev chip loc st with
  | (some l, chip1, st1) => (some l, chip1, st1)
  | (none, chip1, st1) =>
    let st2 := (iic_tpm_write env dev (TPM_ACCESS loc) [TPM_ACCESS_REQUEST_USE] st1).2
    reqLoop env dev loc 2000 chip1 st2

/-- `cr50_tis_i2c_status`: read all 4 bytes of the status register and
return byte 0; any read failure yields 0. -/
def cr50_tis_i2c_status (env : Env) (dev : TpmDev) (chip : Chip) (st : St) :
    Nat × St :=
  match iic_tpm_read env dev (TPM_STS chip.locality) 4 st with
  | (none, st1) => (0, st1)
  | (some buf, st1) => (buf.headD 0, st1)

/-- `cr50_tis_i2c_ready`: write the 4-byte command-ready pattern to the
status register (result ignored) and wait `CR50_TIMEOUT_SHORT_MS`. -/
def cr50_tis_i2c_ready (env : Env) (dev : TpmDev) (chip : Chip) (st : St) : St :=
  mdelay CR50_TIMEOUT_SHORT_MS
    (iic_tpm_write env dev (TPM_STS chip.locality)
      [TPM_STS_COMMAND_READY, 0, 0, 0] st).2

/-- `read_le16(&buf[0])`. -/
def read_le16 (l : List Nat) : Nat :=
  l.headD 0 + 256 * (l.drop 1).headD 0

/-- `read_be32(&buf[0])`. -/
def read_be32 (l : List Nat) : Nat :=
  ((l.headD 0 * 256 + (l.drop 1).headD 0) * 256 + (l.drop 2).headD 0) * 256 +
    (l.drop 3).headD 0

/-- Outcome of `cr50_wait_burst_status`: success with the decoded status
byte and burst count, the source's `-1` timeout, or exhaustion of the
modelling fuel (proved unreachable below). -/
inductive WaitRes where
  | ok (status burst : Nat)
  | timeout
  | fuelOut
deriving DecidableEq

/-- The polling loop of `cr50_wait_burst_status`: while the stopwatch has
not expired, read the 4-byte status register; a failed read is skipped
after a short delay; a successful read returns when `(status & mask) ==
mask` and the burst count lies in `(0, 63]`, else the loop delays and
retries. -/
def waitLoop (env : Env) (dev : TpmDev) (chip : Chip) (mask deadline : Nat) :
    Nat → St → WaitRes × St
  | 0, st => (WaitRes.fuelOut, st)
  | fuel + 1, st =>
    if deadline ≤ st.time then (WaitRes.timeout, st)
    else
      match iic_tpm_read env dev (TPM_STS chip.locality) 4 st with
      | (none, st1) =>
        waitLoop env dev chip mask deadline fuel (mdelay CR50_TIMEOUT_SHORT_MS st1)
      | (some buf, st1) =>
        let status := buf.headD 0
        let burst := read_le16 (buf.drop 1)
        if status &&& mask = mask ∧ 0 < burst ∧ burst ≤ CR50_MAX_BUFSIZE then
          (WaitRes.ok status burst, st1)
        else
          waitLoop env dev chip mask deadline fuel (mdelay CR50_TIMEOUT_SHORT_MS st1)

/-- `cr50_wait_burst_status`: the polling loop under a fresh
`CR50_TIMEOUT_LONG_MS` stopwatch.  1001 fuel covers the wall-clock bound:
every iteration advances time by at least 2 ms. -/
def cr50_wait_burst_status (env : Env) (dev : TpmDev) (chip : Chip)
    (mask : Nat) (st : St) : WaitRes × St :=
  waitLoop env dev chip mask (st.time + CR50_TIMEOUT_LONG_MS) 1001 st

/-- Overwrite `buf[off .. off+bs.length)` with `bs` (the `memcpy` effect of
a FIFO read into the caller's buffer). -/
def writeBytes (buf : List Nat) (off : Nat) (bs : List Nat) : List Nat :=
  buf.take off ++ bs ++ buf.drop (off + bs.length)

/-- Outcome of `cr50_tis_i2c_recv`: the returned byte count, the source's
`-1`, or fuel exhaustion of the model (proved unreachable: every loop
iteration reads at least one byte). -/
inductive RecvRes where
  | ok (n : Nat)
  | err
  | fuelOut
deriving DecidableEq

/-- The `while (current < expected)` loop of `cr50_tis_i2c_recv`: each
iteration re-polls burst/status (requiring `TPM_STS_DATA_AVAIL`), reads
`min(burstcnt, expected - current)` FIFO bytes into the buffer at offset
`current` and advances. -/
def recvLoop (env : Env) (dev : TpmDev) (chip : Chip) (expected : Nat) :
    Nat → Nat → List Nat → St → RecvRes × List Nat × St
  | 0, _, buf, st => (RecvRes.fuelOut, buf, st)
  | fuel + 1, current, buf, st =>
    if expected ≤ current then (RecvRes.ok current, buf, st)
    else
      match cr50_wait_burst_status env dev chip TPM_STS_VALID st with
      | (WaitRes.fuelOut, st1) => (RecvRes.fuelOut, buf, st1)
      | (WaitRes.timeout, st1) => (RecvRes.err, buf, st1)
      | (WaitRes.ok status burst, st1) =>
        if status &&& TPM_STS_DATA_AVAIL = 0 then (RecvRes.err, buf, st1)
        else
          let len := min burst (expected - current)
          match iic_tpm_read env dev (TPM_DATA_FIFO chip.locality) len st1 with
          | (none, st2) => (RecvRes.err, buf, st2)
          | (some bytes, st2) =>
            recvLoop env dev chip expected fuel (current + len)
              (writeBytes buf current bytes) st2

/-- `cr50_tis_i2c_recv`: reject a buffer below `TPM_HEADER_SIZE`; wait for
a valid status with data available; read the first `burstcnt` bytes; decode
the expected total length (big-endian 32 bits at `TPM_RSP_SIZE_BYTE`) and
reject it when it exceeds the buffer capacity; read the remainder in
burst-sized chunks; finally require data-available to be clear and return
the byte count. -/
def cr50_tis_i2c_recv (env : Env) (dev : TpmDev) (chip : Chip)
    (buf : List Nat) (st : St) : RecvRes × List Nat × St :=
  let buf_len := buf.length
  if buf_len < TPM_HEADER_SIZE then (RecvRes.err, buf, st)
  else
    match cr50_wait_burst_status env dev chip TPM_STS_VALID st with
    | (WaitRes.fuelOut, st1) => (RecvRes.fuelOut, buf, st1)
    | (WaitRes.timeout, st1) => (RecvRes.err, buf, st1)
    | (WaitRes.ok status burstcnt, st1) =>
      if status &&& TPM_STS_DATA_AVAIL = 0 then (RecvRes.err, buf, st1)
      else
        match iic_tpm_read env dev (TPM_DATA_FIFO chip.locality) burstcnt st1 with
        | (none, st2) => (RecvRes.err, buf, st2)
        | (some bytes, st2) =>
          let buf1 := writeBytes buf 0 bytes
          let expected := read_be32 (buf1.drop TPM_RSP_SIZE_BYTE)
          if buf_len < expected then (RecvRes.err, buf1, st2)
          else
            match recvLoop env dev chip expected (expected + 1) burstcnt buf1 st2 with
            | (RecvRes.fuelOut, buf2, st3) => (RecvRes.fuelOut, buf2, st3)
            | (RecvRes.err, buf2, st3) => (RecvRes.err, buf2, st3)
            | (RecvRes.ok current, buf2, st3) =>
              match cr50_wait_burst_status env dev chip TPM_STS_VALID st3 with
              | (WaitRes.fuelOut, st4) => (RecvRes.fuelOut, buf2, st4)
              | (WaitRes.timeout, st4) => (RecvRes.err, buf2, st4)
              | (WaitRes.ok status2 _, st4) =>
                if status2 &&& TPM_STS_DATA_AVAIL ≠ 0 then (RecvRes.err, buf2, st4)
                else (RecvRes.ok current, buf2, st4)

/-- Outcome of the command-ready wait of `cr50_tis_i2c_send`. -/
inductive ReadyRes where
  | ready
  | timeoutErr
  | fuelOut
deriving DecidableEq

/-- The command-ready wait of `cr50_tis_i2c_send`: read the status byte;
done when the command-ready bit is set; on an expired stopwatch return the
error (the source's direct `return -1`); otherwise issue a ready write and
retry. -/
def readyLoop (env : Env) (dev : TpmDev) (chip : Chip) (deadline : Nat) :
    Nat → St → ReadyRes × St
  | 0, st => (ReadyRes.fuelOut, st)
  | fuel + 1, st =>
    match cr50_tis_i2c_status env dev chip st with
    | (s, st1) =>
      if s &&& TPM_STS_COMMAND_READY ≠ 0 then (ReadyRes.ready, st1)
      else if deadline ≤ st1.time then (ReadyRes.timeoutErr, st1)
      else readyLoop env dev chip deadline fuel (cr50_tis_i2c_ready env dev chip st1)

/-- Outcome of `cr50_tis_i2c_send`. -/
inductive SendRes where
  | ok (n : Nat)
  | err
  | fuelOut
deriving DecidableEq

/-- Outcome of the transmit loop of `cr50_tis_i2c_send`.  `fuelOut` marks a
run on which the source's `while (len > 0)` loop, which has no timeout,
fails to complete within `len + 1` iterations: with a burst count of 1 the
loop transfers 0 bytes per iteration and never terminates. -/
inductive XmitRes where
  | done
  | abort
  | fuelOut
deriving DecidableEq

/-- The `while (len > 0)` loop of `cr50_tis_i2c_send`: each iteration polls
burst/status (requiring `TPM_STS_DATA_EXPECT` once something was sent),
writes `min(burstcnt - 1, len)` bytes of `buf` starting at `sent` to the
FIFO and advances. -/
def xmitLoop (env : Env) (dev : TpmDev) (chip : Chip) (buf : List Nat) :
    Nat → Nat → Nat → St → XmitRes × Nat × St
  | 0, sent, _, st => (XmitRes.fuelOut, sent, st)
  | fuel + 1, sent, len, st =>
    if len = 0 then (XmitRes.done, sent, st)
    else
      match cr50_wait_burst_status env dev chip TPM_STS_VALID st with
      | (WaitRes.fuelOut, st1) => (XmitRes.fuelOut, sent, st1)
      | (WaitRes.timeout, st1) => (XmitRes.abort, sent, st1)
      | (WaitRes.ok status burstcnt, st1) =>
        if 0 < sent ∧ status &&& TPM_STS_DATA_EXPECT = 0 then
          (XmitRes.abort, sent, st1)
        else
          let limit := min (burstcnt - 1) len
          match iic_tpm_write env dev (TPM_DATA_FIFO chip.locality)
              ((buf.drop sent).take limit) st1 with
          | (false, st2) => (XmitRes.abort, sent, st2)
          | (true, st2) =>
            xmitLoop env dev chip buf fuel (sent + limit) (len - limit) st2

/-- The `out:` label of `cr50_tis_i2c_send`: read the status byte afresh
and, when it still shows command-ready, issue a cancel (ready write). -/
def sendAbort (env : Env) (dev : TpmDev) (chip : Chip) (st : St) : St :=
  match cr50_tis_i2c_status env dev chip st with
  | (s, st1) =>
    if s &&& TPM_STS_COMMAND_READY ≠ 0 then cr50_tis_i2c_ready env dev chip st1
    else st1

/-- `cr50_tis_i2c_send`: wait for command-ready (timeout returns the error
directly), transmit the buffer in burst-sized chunks, require data-expect
to clear, then write the go command; every post-ready failure branch goes
through `sendAbort`. -/
def cr50_tis_i2c_send (env : Env) (dev : TpmDev) (chip : Chip)
    (buf : List Nat) (st : St) : SendRes × St :=
  let deadline := st.time + CR50_TIMEOUT_LONG_MS
  match readyLoop env dev chip deadline 1001 st with
  | (ReadyRes.fuelOut, st1) => (SendRes.fuelOut, st1)
  | (ReadyRes.timeoutErr, st1) => (SendRes.err, st1)
  | (ReadyRes.ready, st1) =>
    match xmitLoop env dev chip buf (buf.length + 1) 0 buf.length st1 with
    | (XmitRes.fuelOut, _, st2) => (SendRes.fuelOut, st2)
    | (XmitRes.abort, _, st2) => (SendRes.err, sendAbort env dev chip st2)
    | (XmitRes.done, sent, st2) =>
      match cr50_wait_burst_status env dev chip TPM_STS_VALID st2 with
      | (WaitRes.fuelOut, st3) => (SendRes.fuelOut, st3)
      | (WaitRes.timeout, st3) => (SendRes.err, sendAbort env dev chip st3)
      | (WaitRes.ok status _, st3) =>
        if status &&& TPM_STS_DATA_EXPECT ≠ 0 then
          (SendRes.err, sendAbort env dev chip st3)
        else
          match iic_tpm_write env dev (TPM_STS chip.locality)
              [TPM_STS_GO, 0, 0, 0] st3 with
          | (false, st4) => (SendRes.err, sendAbort env dev chip st4)
          | (true, st4) => (SendRes.ok sent, st4)

/-- `read_le32` of 4 raw bytes into a `uint32_t` on the little-endian host
(the `DID_VID` read of `tpm_vendor_init`). -/
def read_le32 (l : List Nat) : Nat :=
  l.headD 0 + 256 * ((l.drop 1).headD 0 + 256 *
    ((l.drop 2).headD 0 + 256 * (l.drop 3).headD 0))

/-- `tpm_vendor_init`: fail on a zero device address (leaving the device
handle `dev0` as it was); bind the device, reset the vendor data
(locality 0), request locality 0 (success must return 0); read the 4-byte
identity register and compare against `CR50_DID_VID`; on mismatch (or
read failure) force-release locality 0 and fail, else mark the chip
open. -/
def tpm_vendor_init (env : Env) (dev0 : TpmDev) (chip : Chip)
    (bus dev_addr : Nat) (st : St) : Bool × TpmDev × Chip × St :=
  if dev_addr = 0 then (false, dev0, chip, st)
  else
    let dev : TpmDev := { bus := bus, addr := dev_addr }
    let chip0 : Chip := { chip with locality := 0 }
    match request_locality env dev chip0 0 st with
    | (none, chip1, st1) => (false, dev, chip1, st1)
    | (some l, chip1, st1) =>
      if l ≠ 0 then (false, dev, chip1, st1)
      else
        match iic_tpm_read env dev (TPM_DID_VID 0) 4 st1 with
        | (none, st2) =>
          (false, dev, chip1, release_locality env dev 0 true st2)
        | (some bytes, st2) =>
          if read_le32 bytes ≠ CR50_DID_VID then
            (false, dev, chip1, release_locality env dev 0 true st2)
          else
            (true, dev, { chip1 with is_open := 1 }, st2)

/-! ### Derived views of a run: the operations a call appended to the log -/

/-- The events a call appended: the suffix of the final log past the log the
call started from. -/
def newEvents (st stF : St) : List Event :=
  stF.events.drop st.events.length

/-- Is the event a read of the 4-byte status register of locality `loc`? -/
def isStsRead (loc : Nat) : Event → Bool
  | Event.readEvt reg len _ => reg == TPM_STS loc && len == 4
  | _ => false

/-- The status byte such a read delivered to `cr50_tis_i2c_status` (0 when
the read failed). -/
def stsObs : Event → Nat
  | Event.readEvt _ _ (some bs) => bs.headD 0
  | _ => 0

/-- The status byte of the latest status-register read in the log (0 when
there is none, matching `cr50_tis_i2c_status` on failure). -/
def lastStsObs (loc : Nat) (es : List Event) : Nat :=
  match es.reverse.find? (isStsRead loc) with
  | some e => stsObs e
  | none => 0

/-- Is the event a register write? -/
def isWrite : Event → Bool
  | Event.writeEvt _ _ _ => true
  | _ => false

/-- Number of register writes in the log. -/
def writeCount (es : List Event) : Nat :=
  (es.filter isWrite).length

/-- Number of writes to register `reg` in the log. -/
def writesTo (reg : Nat) (es : List Event) : Nat :=
  (es.filter (fun e => match e with
    | Event.writeEvt r _ _ => r == reg
    | _ => false)).length

/-- Total bytes delivered by successful FIFO reads in the log. -/
def fifoReadBytes (loc : Nat) (es : List Event) : Nat :=
  (es.map (fun e => match e with
    | Event.readEvt reg len (some _) => if reg = TPM_DATA_FIFO loc then len else 0
    | _ => 0)).sum

/-- The sizes of the chunks written to the FIFO, in order. -/
def fifoWriteSizes (loc : Nat) (es : List Event) : List Nat :=
  es.filterMap (fun e => match e with
    | Event.writeEvt reg data _ =>
      if reg = TPM_DATA_FIFO loc then some data.length else none
    | _ => none)

/-- Is the event a cancel (4-byte command-ready write to the status
register of locality `loc`)? -/
def isCancel (loc : Nat) : Event → Bool
  | Event.writeEvt reg data _ =>
    reg == TPM_STS loc && data == [TPM_STS_COMMAND_READY, 0, 0, 0]
  | _ => false

/-- Number of cancel/ready writes in the log. -/
def readyWriteCount (loc : Nat) (es : List Event) : Nat :=
  (es.filter (isCancel loc)).length

/-! ### Structural lemmas about the primitives -/

theorem newEvents_eq {st stF : St} {l : List Event}
    (h : stF.events = st.events ++ l) : newEvents st stF = l := by
  simp [newEvents, h]

theorem lastStsObs_append_of_none {loc : Nat} {l1 l2 : List Event}
    (h : l2.any (isStsRead loc) = false) :
    lastStsObs loc (l1 ++ l2) = lastStsObs loc l1 := by
  have h2 : l2.reverse.find? (isStsRead loc) = none := by
    rw [List.find?_eq_none]
    intro x hx
    simp only [List.mem_reverse] at hx
    have := (List.any_eq_false).mp h x hx
    simpa using this
  simp [lastStsObs, List.reverse_append, List.find?_append, h2]

theorem lastStsObs_append_of_any {loc : Nat} {l1 l2 : List Event}
    (h : l2.any (isStsRead loc) = true) :
    lastStsObs loc (l1 ++ l2) = lastStsObs loc l2 := by
  have h2 : l2.reverse.find? (isStsRead loc) ≠ none := by
    intro hn
    rw [List.find?_eq_none] at hn
    rcases List.any_eq_true.mp h with ⟨x, hx, hpx⟩
    exact hn x (List.mem_reverse.mpr hx) hpx
  rcases Option.ne_none_iff_exists.mp h2 with ⟨e, he⟩
  simp [lastStsObs, List.reverse_append, List.find?_append, ← he]

theorem iic_tpm_read_addr0 (env : Env) (dev : TpmDev) (reg len : Nat)
    (st : St) (h : dev.addr = 0) :
    iic_tpm_read env dev reg len st = (none, st) := by
  simp [iic_tpm_read, h]

theorem iic_tpm_write_addr0 (env : Env) (dev : TpmDev) (reg : Nat)
    (data : List Nat) (st : St) (h : dev.addr = 0) :
    iic_tpm_write env dev reg data st = (false, st) := by
  simp [iic_tpm_write, h]

theorem iic_tpm_read_ok (env : Env) (dev : TpmDev) (reg len : Nat) (st : St)
    (ha : dev.addr ≠ 0) (h1 : env.addrWriteOk st.ioCount reg = true)
    (h2 : env.readOk st.ioCount reg len = true) :
    iic_tpm_read env dev reg len st =
      (some (readBytes env st.ioCount reg len),
       { time := st.time + CR50_TIMEOUT_SHORT_MS, ioCount := st.ioCount + 1,
         events := st.events ++
           [Event.readEvt reg len (some (readBytes env st.ioCount reg len))] }) := by
  simp [iic_tpm_read, ha, h1, h2, mdelay]

theorem iic_tpm_read_readfail (env : Env) (dev : TpmDev) (reg len : Nat)
    (st : St) (ha : dev.addr ≠ 0) (h1 : env.addrWriteOk st.ioCount reg = true)
    (h2 : env.readOk st.ioCount reg len = false) :
    iic_tpm_read env dev reg len st =
      (none,
       { time := st.time + CR50_TIMEOUT_SHORT_MS, ioCount := st.ioCount + 1,
         events := st.events ++ [Event.readEvt reg len none] }) := by
  simp [iic_tpm_read, ha, h1, h2, mdelay]

theorem iic_tpm_read_awfail (env : Env) (dev : TpmDev) (reg len : Nat)
    (st : St) (ha : dev.addr ≠ 0)
    (h1 : env.addrWriteOk st.ioCount reg = false) :
    iic_tpm_read env dev reg len st =
      (none,
       { time := st.time, ioCount := st.ioCount + 1,
         events := st.events ++ [Event.readEvt reg len none] }) := by
  simp [iic_tpm_read, ha, h1]

theorem iic_tpm_read_step (env : Env) (dev : TpmDev) (reg len : Nat) (st : St)
    (ha : dev.addr ≠ 0) :
    ∃ res t,
      iic_tpm_read env dev reg len st =
        (res, { time := t, ioCount := st.ioCount + 1,
                events := st.events ++ [Event.readEvt reg len res] }) ∧
      st.time ≤ t ∧ t ≤ st.time + CR50_TIMEOUT_SHORT_MS := by
  rcases h1 : env.addrWriteOk st.ioCount reg with _ | _
  · rw [iic_tpm_read_awfail env dev reg len st ha h1]
    exact ⟨none, st.time, rfl, Nat.le_refl _, Nat.le_add_right _ _⟩
  · rcases h2 : env.readOk st.ioCount reg len with _ | _
    · rw [iic_tpm_read_readfail env dev reg len st ha h1 h2]
      exact ⟨none, st.time + CR50_TIMEOUT_SHORT_MS, rfl, Nat.le_add_right _ _, Nat.le_refl _⟩
    · rw [iic_tpm_read_ok env dev reg len st ha h1 h2]
      exact ⟨some (readBytes env st.ioCount reg len), st.time + CR50_TIMEOUT_SHORT_MS,
        rfl, Nat.le_add_right _ _, Nat.le_refl _⟩

theorem iic_tpm_read_shape (env : Env) (dev : TpmDev) (reg len : Nat) (st : St) :
    ∃ l, (iic_tpm_read env dev reg len st).2.events = st.events ++ l ∧
      (∀ e ∈ l, ∃ res, e = Event.readEvt reg len res) ∧
      st.time ≤ (iic_tpm_read env dev reg len st).2.time ∧
      (iic_tpm_read env dev reg len st).2.time ≤ st.time + CR50_TIMEOUT_SHORT_MS := by
  by_cases ha : dev.addr = 0
  · refine ⟨[], ?_, by simp, ?_, ?_⟩ <;> simp [iic_tpm_read_addr0 env dev reg len st ha]
  · rcases iic_tpm_read_step env dev reg len st ha with ⟨res, t, heq, ht1, ht2⟩
    refine ⟨[Event.readEvt reg len res], by rw [heq], ?_, by rw [heq]; exact ht1,
      by rw [heq]; exact ht2⟩
    intro e he
    simp at he
    exact ⟨res, he⟩

theorem iic_tpm_write_step (env : Env) (dev : TpmDev) (reg : Nat)
    (data : List Nat) (st : St) (ha : dev.addr ≠ 0)
    (hlen : data.length ≤ CR50_MAX_BUFSIZE) :
    ∃ b t,
      (iic_tpm_write env dev reg data st).2 =
        { time := t, ioCount := st.ioCount + 1,
          events := st.events ++ [Event.writeEvt reg data b] } ∧
      st.time ≤ t ∧ t ≤ st.time + CR50_TIMEOUT_SHORT_MS := by
  have hlen2 : ¬ CR50_MAX_BUFSIZE < data.length := by omega
  rcases hok : env.writeOk st.ioCount reg data with _ | _
  · exact ⟨false, st.time, by simp [iic_tpm_write, ha, hlen2, hok],
      Nat.le_refl _, Nat.le_add_right _ _⟩
  · exact ⟨true, st.time + CR50_TIMEOUT_SHORT_MS,
      by simp [iic_tpm_write, ha, hlen2, hok, mdelay],
      Nat.le_add_right _ _, Nat.le_refl _⟩

theorem iic_tpm_write_shape (env : Env) (dev : TpmDev) (reg : Nat)
    (data : List Nat) (st : St) :
    ∃ l, (iic_tpm_write env dev reg data st).2.events = st.events ++ l ∧
      (∀ e ∈ l, ∃ b, e = Event.writeEvt reg data b) ∧
      st.time ≤ (iic_tpm_write env dev reg data st).2.time ∧
      (iic_tpm_write env dev reg data st).2.time ≤ st.time + CR50_TIMEOUT_SHORT_MS := by
  by_cases ha : dev.addr = 0
  · refine ⟨[], ?_, by simp, ?_, ?_⟩ <;> simp [iic_tpm_write_addr0 env dev reg data st ha]
  · by_cases hlen : data.length ≤ CR50_MAX_BUFSIZE
    · rcases iic_tpm_write_step env dev reg data st ha hlen with ⟨b, t, heq, ht1, ht2⟩
      refine ⟨[Event.writeEvt reg data b], by rw [heq], ?_, by rw [heq]; exact ht1,
        by rw [heq]; exact ht2⟩
      intro e he
      simp at he
      exact ⟨b, he⟩
    · have hlen2 : CR50_MAX_BUFSIZE < data.length := by omega
      refine ⟨[], ?_, by simp, by simp [iic_tpm_write, ha, hlen2], by simp [iic_tpm_write, ha, hlen2]⟩
      simp [iic_tpm_write, ha, hlen2]

theorem cr50_status_addr0 (env : Env) (dev : TpmDev) (chip : Chip) (st : St)
    (ha : dev.addr = 0) : cr50_tis_i2c_status env dev chip st = (0, st) := by
  simp [cr50_tis_i2c_status, iic_tpm_read_addr0 _ _ _ _ _ ha]

theorem cr50_status_step (env : Env) (dev : TpmDev) (chip : Chip) (st : St)
    (ha : dev.addr ≠ 0) :
    ∃ e t, isStsRead chip.locality e = true ∧
      stsObs e = (cr50_tis_i2c_status env dev chip st).1 ∧
      (cr50_tis_i2c_status env dev chip st).2 =
        { time := t, ioCount := st.ioCount + 1, events := st.events ++ [e] } ∧
      st.time ≤ t ∧ t ≤ st.time + CR50_TIMEOUT_SHORT_MS := by
  rcases h1 : env.addrWriteOk st.ioCount (TPM_STS chip.locality) with _ | _
  · refine ⟨Event.readEvt (TPM_STS chip.locality) 4 none, st.time,
      by simp [isStsRead], ?_, ?_, Nat.le_refl _, Nat.le_add_right _ _⟩ <;>
      simp [cr50_tis_i2c_status, iic_tpm_read_awfail _ _ _ _ _ ha h1, stsObs]
  · rcases h2 : env.readOk st.ioCount (TPM_STS chip.locality) 4 with _ | _
    · refine ⟨Event.readEvt (TPM_STS chip.locality) 4 none, st.time + CR50_TIMEOUT_SHORT_MS,
        by simp [isStsRead], ?_, ?_, Nat.le_add_right _ _, Nat.le_refl _⟩ <;>
        simp [cr50_tis_i2c_status, iic_tpm_read_readfail _ _ _ _ _ ha h1 h2, stsObs]
    · refine ⟨Event.readEvt (TPM_STS chip.locality) 4
        (some (readBytes env st.ioCount (TPM_STS chip.locality) 4)),
        st.time + CR50_TIMEOUT_SHORT_MS,
        by simp [isStsRead], ?_, ?_, Nat.le_add_right _ _, Nat.le_refl _⟩ <;>
        simp [cr50_tis_i2c_status, iic_tpm_read_ok _ _ _ _ _ ha h1 h2, stsObs]

theorem cr50_status_shape (env : Env) (dev : TpmDev) (chip : Chip) (st : St) :
    ∃ l, (cr50_tis_i2c_status env dev chip st).2.events = st.events ++ l ∧
      (∀ e ∈ l, ∃ res, e = Event.readEvt (TPM_STS chip.locality) 4 res) ∧
      st.time ≤ (cr50_tis_i2c_status env dev chip st).2.time ∧
      (cr50_tis_i2c_status env dev chip st).2.time ≤ st.time + CR50_TIMEOUT_SHORT_MS := by
  rcases iic_tpm_read_shape env dev (TPM_STS chip.locality) 4 st with ⟨l, he, hl, ht1, ht2⟩
  refine ⟨l, ?_, hl, ?_, ?_⟩ <;>
    rcases hr : iic_tpm_read env dev (TPM_STS chip.locality) 4 st with ⟨res, st1⟩ <;>
      rcases res with _ | buf <;>
        simp_all [cr50_tis_i2c_status]

theorem cr50_ready_addr0 (env : Env) (dev : TpmDev) (chip : Chip) (st : St)
    (ha : dev.addr = 0) :
    cr50_tis_i2c_ready env dev chip st = mdelay CR50_TIMEOUT_SHORT_MS st := by
  simp [cr50_tis_i2c_ready, iic_tpm_write_addr0 _ _ _ _ _ ha]

theorem cr50_ready_step (env : Env) (dev : TpmDev) (chip : Chip) (st : St)
    (ha : dev.addr ≠ 0) :
    ∃ b, (cr50_tis_i2c_ready env dev chip st).events = st.events ++
        [Event.writeEvt (TPM_STS chip.locality) [TPM_STS_COMMAND_READY, 0, 0, 0] b] ∧
      (cr50_tis_i2c_ready env dev chip st).ioCount = st.ioCount + 1 ∧
      st.time + CR50_TIMEOUT_SHORT_MS ≤ (cr50_tis_i2c_ready env dev chip st).time ∧
      (cr50_tis_i2c_ready env dev chip st).time ≤ st.time + 2 * CR50_TIMEOUT_SHORT_MS := by
  rcases iic_tpm_write_step env dev (TPM_STS chip.locality)
      [TPM_STS_COMMAND_READY, 0, 0, 0] st ha (by simp [CR50_MAX_BUFSIZE]) with
    ⟨b, t, heq, ht1, ht2⟩
  refine ⟨b, ?_, ?_, ?_, ?_⟩ <;> simp only [cr50_tis_i2c_ready, mdelay, heq]
  · omega
  · omega

theorem cr50_ready_shape (env : Env) (dev : TpmDev) (chip : Chip) (st : St) :
    ∃ l, (cr50_tis_i2c_ready env dev chip st).events = st.events ++ l ∧
      (∀ e ∈ l, ∃ b,
        e = Event.writeEvt (TPM_STS chip.locality) [TPM_STS_COMMAND_READY, 0, 0, 0] b) ∧
      st.time + CR50_TIMEOUT_SHORT_MS ≤ (cr50_tis_i2c_ready env dev chip st).time ∧
      (cr50_tis_i2c_ready env dev chip st).time ≤ st.time + 2 * CR50_TIMEOUT_SHORT_MS := by
  rcases iic_tpm_write_shape env dev (TPM_STS chip.locality)
      [TPM_STS_COMMAND_READY, 0, 0, 0] st with ⟨l, he, hl, ht1, ht2⟩
  refine ⟨l, ?_, hl, ?_, ?_⟩ <;> simp only [cr50_tis_i2c_ready, mdelay]
  · exact he
  · omega
  · omega

/-! ### The burst/status wait loop -/

theorem waitLoop_ok (env : Env) (dev : TpmDev) (chip : Chip) (mask dl : Nat) :
    ∀ fuel st s b st', waitLoop env dev chip mask dl fuel st = (WaitRes.ok s b, st') →
      s &&& mask = mask ∧ 0 < b ∧ b ≤ CR50_MAX_BUFSIZE := by
  intro fuel
  induction fuel with
  | zero =>
    intro st s b st' h
    simp [waitLoop] at h
  | succ f ih =>
    intro st s b st' h
    rw [waitLoop] at h
    split at h
    · exact absurd h (by simp)
    · split at h
      · exact ih _ s b st' h
      · dsimp only at h
        split at h
        · rename_i hq
          simp only [Prod.mk.injEq, WaitRes.ok.injEq] at h
          obtain ⟨⟨hs, hb⟩, _⟩ := h
          subst hs
          subst hb
          exact hq
        · exact ih _ s b st' h

/-- The status byte a successful 4-byte status read at operation `idx`
decodes to. -/
def stsByteAt (env : Env) (idx loc : Nat) : Nat :=
  env.readByte idx (TPM_STS loc) 0 % 256

/-- The burst count a successful 4-byte status read at operation `idx`
decodes to (little-endian bytes 1 and 2). -/
def burstAt (env : Env) (idx loc : Nat) : Nat :=
  env.readByte idx (TPM_STS loc) 1 % 256 + 256 * (env.readByte idx (TPM_STS loc) 2 % 256)

/-- A status read at operation `idx` would satisfy the wait condition. -/
def stsQualify (env : Env) (idx loc mask : Nat) : Prop :=
  stsByteAt env idx loc &&& mask = mask ∧
    0 < burstAt env idx loc ∧ burstAt env idx loc ≤ CR50_MAX_BUFSIZE

theorem readBytes_four (env : Env) (idx reg : Nat) :
    readBytes env idx reg 4 =
      [env.readByte idx reg 0 % 256, env.readByte idx reg 1 % 256,
       env.readByte idx reg 2 % 256, env.readByte idx reg 3 % 256] := rfl

theorem iic_tpm_read_some (env : Env) (dev : TpmDev) (reg len : Nat) (st : St)
    (buf : List Nat) (st1 : St)
    (h : iic_tpm_read env dev reg len st = (some buf, st1)) :
    buf = readBytes env st.ioCount reg len ∧
    st1 = { time := st.time + CR50_TIMEOUT_SHORT_MS, ioCount := st.ioCount + 1,
            events := st.events ++ [Event.readEvt reg len (some buf)] } := by
  by_cases ha : dev.addr = 0
  · rw [iic_tpm_read_addr0 env dev reg len st ha] at h
    exact absurd h (by simp)
  · rcases h1 : env.addrWriteOk st.ioCount reg with _ | _
    · rw [iic_tpm_read_awfail env dev reg len st ha h1] at h
      exact absurd h (by simp)
    · rcases h2 : env.readOk st.ioCount reg len with _ | _
      · rw [iic_tpm_read_readfail env dev reg len st ha h1 h2] at h
        exact absurd h (by simp)
      · rw [iic_tpm_read_ok env dev reg len st ha h1 h2] at h
        simp only [Prod.mk.injEq, Option.some.injEq] at h
        obtain ⟨hb, hs⟩ := h
        subst hb
        exact ⟨rfl, hs.symm⟩

theorem waitLoop_shape (env : Env) (dev : TpmDev) (chip : Chip) (mask dl : Nat) :
    ∀ fuel st, ∃ l,
      (waitLoop env dev chip mask dl fuel st).2.events = st.events ++ l ∧
      (∀ e ∈ l, ∃ res, e = Event.readEvt (TPM_STS chip.locality) 4 res) ∧
      st.time ≤ (waitLoop env dev chip mask dl fuel st).2.time := by
  intro fuel
  induction fuel with
  | zero =>
    intro st
    exact ⟨[], by simp [waitLoop], by simp, by simp [waitLoop]⟩
  | succ f ih =>
    intro st
    rw [waitLoop]
    split
    · exact ⟨[], by simp, by simp, Nat.le_refl _⟩
    · split
      case _ st1 heq =>
        have hsh := iic_tpm_read_shape env dev (TPM_STS chip.locality) 4 st
        rw [heq] at hsh
        dsimp only at hsh
        rcases hsh with ⟨l1, he1, hl1, ht1, _⟩
        rcases ih (mdelay CR50_TIMEOUT_SHORT_MS st1) with ⟨l2, he2, hl2, ht2⟩
        refine ⟨l1 ++ l2, ?_, ?_, ?_⟩
        · rw [he2]
          simp only [mdelay]
          rw [he1, List.append_assoc]
        · intro e he
          rcases List.mem_append.mp he with h | h
          · exact hl1 e h
          · exact hl2 e h
        · simp only [mdelay] at ht2 ⊢
          omega
      case _ buf st1 heq =>
        have hsh := iic_tpm_read_shape env dev (TPM_STS chip.locality) 4 st
        rw [heq] at hsh
        dsimp only at hsh
        rcases hsh with ⟨l1, he1, hl1, ht1, _⟩
        dsimp only
        split
        · exact ⟨l1, he1, hl1, ht1⟩
        · rcases ih (mdelay CR50_TIMEOUT_SHORT_MS st1) with ⟨l2, he2, hl2, ht2⟩
          refine ⟨l1 ++ l2, ?_, ?_, ?_⟩
          · rw [he2]
            simp only [mdelay]
            rw [he1, List.append_assoc]
          · intro e he
            rcases List.mem_append.mp he with h | h
            · exact hl1 e h
            · exact hl2 e h
          · simp only [mdelay] at ht2 ⊢
            omega

theorem waitLoop_timeout_time (env : Env) (dev : TpmDev) (chip : Chip)
    (mask dl : Nat) :
    ∀ fuel st st', waitLoop env dev chip mask dl fuel st = (WaitRes.timeout, st') →
      dl ≤ st'.time := by
  intro fuel
  induction fuel with
  | zero =>
    intro st st' h
    simp [waitLoop] at h
  | succ f ih =>
    intro st st' h
    rw [waitLoop] at h
    split at h <;> rename_i hdl
    · simp only [Prod.mk.injEq] at h
      obtain ⟨_, h2⟩ := h
      subst h2
      exact hdl
    · split at h
      case _ st1 heq => exact ih _ _ h
      case _ buf st1 heq =>
        dsimp only at h
        split at h
        · exact absurd h (by simp)
        · exact ih _ _ h

theorem waitLoop_time_ub (env : Env) (dev : TpmDev) (chip : Chip)
    (mask dl : Nat) :
    ∀ fuel st st' r, waitLoop env dev chip mask dl fuel st = (r, st') →
      st'.time ≤ max st.time (dl + 3) := by
  intro fuel
  induction fuel with
  | zero =>
    intro st st' r h
    simp only [waitLoop, Prod.mk.injEq] at h
    obtain ⟨_, h2⟩ := h
    subst h2
    simp
  | succ f ih =>
    intro st st' r h
    rw [waitLoop] at h
    split at h <;> rename_i hdl
    · simp only [Prod.mk.injEq] at h
      obtain ⟨_, h2⟩ := h
      subst h2
      simp
    · split at h
      case _ st1 heq =>
        have hsh := iic_tpm_read_shape env dev (TPM_STS chip.locality) 4 st
        rw [heq] at hsh
        dsimp only at hsh
        rcases hsh with ⟨_, _, _, ht1, ht2⟩
        have h3 := ih _ _ _ h
        simp only [mdelay, CR50_TIMEOUT_SHORT_MS] at h3 ht1 ht2
        simp only [max_le_iff, le_max_iff] at h3 ⊢
        omega
      case _ buf st1 heq =>
        have hsh := iic_tpm_read_shape env dev (TPM_STS chip.locality) 4 st
        rw [heq] at hsh
        dsimp only at hsh
        rcases hsh with ⟨_, _, _, ht1, ht2⟩
        dsimp only at h
        split at h
        · simp only [Prod.mk.injEq] at h
          obtain ⟨_, h2⟩ := h
          subst h2
          simp only [CR50_TIMEOUT_SHORT_MS] at ht2
          simp only [le_max_iff]
          omega
        · have h3 := ih _ _ _ h
          simp only [mdelay, CR50_TIMEOUT_SHORT_MS] at h3 ht1 ht2
          simp only [max_le_iff, le_max_iff] at h3 ⊢
          omega

theorem waitLoop_noFuelOut (env : Env) (dev : TpmDev) (chip : Chip)
    (mask dl : Nat) :
    ∀ f st, dl ≤ st.time + 2 * f →
      (waitLoop env dev chip mask dl (f + 1) st).1 ≠ WaitRes.fuelOut := by
  intro f
  induction f with
  | zero =>
    intro st hf
    rw [waitLoop]
    split <;> rename_i hdl
    · simp
    · omega
  | succ f ih =>
    intro st hf
    rw [waitLoop]
    split <;> rename_i hdl
    · simp
    · split
      case _ st1 heq =>
        have hsh := iic_tpm_read_shape env dev (TPM_STS chip.locality) 4 st
        rw [heq] at hsh
        dsimp only at hsh
        rcases hsh with ⟨_, _, _, ht1, _⟩
        apply ih
        simp only [mdelay, CR50_TIMEOUT_SHORT_MS] at ht1 ⊢
        omega
      case _ buf st1 heq =>
        have hsh := iic_tpm_read_shape env dev (TPM_STS chip.locality) 4 st
        rw [heq] at hsh
        dsimp only at hsh
        rcases hsh with ⟨_, _, _, ht1, _⟩
        dsimp only
        split
        · simp
        · apply ih
          simp only [mdelay, CR50_TIMEOUT_SHORT_MS] at ht1 ⊢
          omega

theorem waitLoop_never (env : Env) (dev : TpmDev) (chip : Chip) (mask dl : Nat)
    (hn : ∀ idx, ¬ stsQualify env idx chip.locality mask) :
    ∀ f st, dl ≤ st.time + 2 * f →
      ∃ st', waitLoop env dev chip mask dl (f + 1) st = (WaitRes.timeout, st') := by
  intro f
  induction f with
  | zero =>
    intro st hf
    rw [waitLoop]
    split <;> rename_i hdl
    · exact ⟨st, rfl⟩
    · omega
  | succ f ih =>
    intro st hf
    rw [waitLoop]
    split <;> rename_i hdl
    · exact ⟨st, rfl⟩
    · split
      case _ st1 heq =>
        have hsh := iic_tpm_read_shape env dev (TPM_STS chip.locality) 4 st
        rw [heq] at hsh
        dsimp only at hsh
        rcases hsh with ⟨_, _, _, ht1, _⟩
        apply ih
        simp only [mdelay, CR50_TIMEOUT_SHORT_MS] at ht1 ⊢
        omega
      case _ buf st1 heq =>
        obtain ⟨hbuf, hst1⟩ := iic_tpm_read_some env dev _ _ _ _ _ heq
        subst hbuf
        dsimp only
        have hc := hn st.ioCount
        rw [if_neg]
        · apply ih
          rw [hst1]
          simp only [mdelay, CR50_TIMEOUT_SHORT_MS]
          omega
        · simpa [stsQualify, stsByteAt, burstAt, readBytes_four, read_le16] using hc

theorem wait_ok (env : Env) (dev : TpmDev) (chip : Chip) (mask : Nat)
    (st : St) (s b : Nat) (st' : St)
    (h : cr50_wait_burst_status env dev chip mask st = (WaitRes.ok s b, st')) :
    s &&& mask = mask ∧ 0 < b ∧ b ≤ CR50_MAX_BUFSIZE :=
  waitLoop_ok env dev chip mask _ 1001 st s b st' h

theorem wait_shape (env : Env) (dev : TpmDev) (chip : Chip) (mask : Nat)
    (st : St) :
    ∃ l, (cr50_wait_burst_status env dev chip mask st).2.events = st.events ++ l ∧
      (∀ e ∈ l, ∃ res, e = Event.readEvt (TPM_STS chip.locality) 4 res) ∧
      st.time ≤ (cr50_wait_burst_status env dev chip mask st).2.time :=
  waitLoop_shape env dev chip mask _ 1001 st

theorem wait_timeout_time (env : Env) (dev : TpmDev) (chip : Chip)
    (mask : Nat) (st st' : St)
    (h : cr50_wait_burst_status env dev chip mask st = (WaitRes.timeout, st')) :
    st.time + CR50_TIMEOUT_LONG_MS ≤ st'.time :=
  waitLoop_timeout_time env dev chip mask _ 1001 st st' h

theorem wait_noFuelOut (env : Env) (dev : TpmDev) (chip : Chip) (mask : Nat)
    (st : St) :
    (cr50_wait_burst_status env dev chip mask st).1 ≠ WaitRes.fuelOut := by
  have h1001 : (1001 : Nat) = 1000 + 1 := rfl
  rw [cr50_wait_burst_status, h1001]
  apply waitLoop_noFuelOut
  simp [CR50_TIMEOUT_LONG_MS]

theorem wait_never (env : Env) (dev : TpmDev) (chip : Chip) (mask : Nat)
    (st : St) (hn : ∀ idx, ¬ stsQualify env idx chip.locality mask) :
    ∃ st', cr50_wait_burst_status env dev chip mask st = (WaitRes.timeout, st') ∧
      st.time + CR50_TIMEOUT_LONG_MS ≤ st'.time ∧
      st'.time ≤ st.time + CR50_TIMEOUT_LONG_MS + 3 := by
  have h1001 : (1001 : Nat) = 1000 + 1 := rfl
  obtain ⟨st', heq⟩ := waitLoop_never env dev chip mask
    (st.time + CR50_TIMEOUT_LONG_MS) hn 1000 st (by simp [CR50_TIMEOUT_LONG_MS])
  have heq2 : cr50_wait_burst_status env dev chip mask st = (WaitRes.timeout, st') := by
    rw [cr50_wait_burst_status, h1001]
    exact heq
  have ht1 := wait_timeout_time env dev chip mask st st' heq2
  have ht2 := waitLoop_time_ub env dev chip mask
    (st.time + CR50_TIMEOUT_LONG_MS) (1000 + 1) st st' WaitRes.timeout heq
  refine ⟨st', heq2, ht1, ?_⟩
  have : max st.time (st.time + CR50_TIMEOUT_LONG_MS + 3) =
      st.time + CR50_TIMEOUT_LONG_MS + 3 := by omega
  omega

/-! ### Concrete fixtures used by witnesses and counterexamples -/

/-- A device handle with a valid (non-zero) chip address. -/
def dev1 : TpmDev := { bus := 0, addr := 1 }

/-- A chip context at locality 0, not yet open. -/
def chip0 : Chip := { locality := 0, is_open := 0 }

/-- The initial machine state. -/
def st0 : St := { time := 0, ioCount := 0, events := [] }

/-- A bus on which every operation succeeds and every status read returns
status byte `s8` and burst count `b`. -/
def constEnv (s8 b : Nat) : Env :=
  { addrWriteOk := fun _ _ => true
    readOk := fun _ _ _ => true
    writeOk := fun _ _ _ => true
    readByte := fun _ _ off => if off = 0 then s8 else if off = 1 then b else 0 }

/-- A bus on which every operation fails. -/
def envDead : Env :=
  { addrWriteOk := fun _ _ => false
    readOk := fun _ _ _ => false
    writeOk := fun _ _ _ => false
    readByte := fun _ _ _ => 0 }

/-! ### C6 -/

theorem wait_first (env : Env) (dev : TpmDev) (chip : Chip) (mask : Nat)
    (st : St) (ha : dev.addr ≠ 0)
    (h1 : env.addrWriteOk st.ioCount (TPM_STS chip.locality) = true)
    (h2 : env.readOk st.ioCount (TPM_STS chip.locality) 4 = true)
    (hq : stsQualify env st.ioCount chip.locality mask) :
    cr50_wait_burst_status env dev chip mask st =
      (WaitRes.ok (stsByteAt env st.ioCount chip.locality)
        (burstAt env st.ioCount chip.locality),
       ⟨st.time + CR50_TIMEOUT_SHORT_MS, st.ioCount + 1,
        st.events ++ [Event.readEvt (TPM_STS chip.locality) 4
          (some (readBytes env st.ioCount (TPM_STS chip.locality) 4))]⟩) := by
  have h1001 : (1001 : Nat) = 1000 + 1 := rfl
  rw [cr50_wait_burst_status, h1001, waitLoop]
  rw [if_neg (by simp [CR50_TIMEOUT_LONG_MS])]
  rw [iic_tpm_read_ok env dev _ 4 st ha h1 h2]
  have e1 : (readBytes env st.ioCount (TPM_STS chip.locality) 4).headD 0 =
      stsByteAt env st.ioCount chip.locality := by
    rw [readBytes_four]
    rfl
  have e2 : read_le16 ((readBytes env st.ioCount (TPM_STS chip.locality) 4).drop 1) =
      burstAt env st.ioCount chip.locality := by
    rw [readBytes_four]
    rfl
  dsimp only
  rw [e1, e2]
  split
  · rfl
  · rename_i hc
    exact absurd hq hc

/-- C6: the burst/status wait succeeds only with a read satisfying
`(status & mask) == mask` and a burst count in `[1, 63]`, and conversely
a qualifying read succeeds at once; it fails with the timeout error only
once the 2000 ms bound has elapsed; and it never gets stuck: a failing
individual register read cannot abort it, as the loop has no abort
outcome and the modelling fuel is never exhausted. -/
theorem C6_wait_burst_status (env : Env) (dev : TpmDev) (chip : Chip)
    (mask : Nat) (st : St) :
    (∀ s b st', cr50_wait_burst_status env dev chip mask st = (WaitRes.ok s b, st') →
      s &&& mask = mask ∧ 1 ≤ b ∧ b ≤ 63) ∧
    (∀ st', cr50_wait_burst_status env dev chip mask st = (WaitRes.timeout, st') →
      st.time + 2000 ≤ st'.time) ∧
    (cr50_wait_burst_status env dev chip mask st).1 ≠ WaitRes.fuelOut ∧
    (dev.addr ≠ 0 → env.addrWriteOk st.ioCount (TPM_STS chip.locality) = true →
      env.readOk st.ioCount (TPM_STS chip.locality) 4 = true →
      stsQualify env st.ioCount chip.locality mask →
      (cr50_wait_burst_status env dev chip mask st).1 =
        WaitRes.ok (stsByteAt env st.ioCount chip.locality)
          (burstAt env st.ioCount chip.locality)) := by
  refine ⟨?_, ?_, wait_noFuelOut env dev chip mask st, ?_⟩
  · intro s b st' h
    have hk := wait_ok env dev chip mask st s b st' h
    simpa [CR50_MAX_BUFSIZE] using hk
  · intro st' h
    have hk := wait_timeout_time env dev chip mask st st' h
    simpa [CR50_TIMEOUT_LONG_MS] using hk
  · intro ha h1 h2 hq
    rw [wait_first env dev chip mask st ha h1 h2 hq]

/-- C6 witness: on a bus constantly answering status `0xC8` and burst 3,
the wait returns that reading, and the theorem applies to it. -/
theorem C6_wait_burst_status_witness :
    (0xC8 : Nat) &&& TPM_STS_VALID = TPM_STS_VALID ∧ 1 ≤ 3 ∧ 3 ≤ 63 :=
  (C6_wait_burst_status (constEnv 0xC8 3) dev1 chip0 TPM_STS_VALID st0).1 0xC8 3
    (cr50_wait_burst_status (constEnv 0xC8 3) dev1 chip0 TPM_STS_VALID st0).2
    (by decide)

/-! ### check_locality / release_locality / request_locality -/

theorem readBytes_one (env : Env) (idx reg : Nat) :
    readBytes env idx reg 1 = [env.readByte idx reg 0 % 256] := rfl

theorem writeCount_of_reads {l : List Event}
    (h : ∀ e ∈ l, ∃ reg len res, e = Event.readEvt reg len res) :
    writeCount l = 0 := by
  rw [writeCount, List.length_eq_zero]
  rw [List.filter_eq_nil_iff]
  intro e he
  rcases h e he with ⟨reg, len, res, rfl⟩
  simp [isWrite]

theorem check_locality_owned (env : Env) (dev : TpmDev) (chip : Chip)
    (loc : Nat) (st : St) (ha : dev.addr ≠ 0)
    (h1 : env.addrWriteOk st.ioCount (TPM_ACCESS loc) = true)
    (h2 : env.readOk st.ioCount (TPM_ACCESS loc) 1 = true)
    (h3 : env.readByte st.ioCount (TPM_ACCESS loc) 0 % 256 &&&
        (TPM_ACCESS_ACTIVE_LOCALITY ||| TPM_ACCESS_VALID) =
        (TPM_ACCESS_ACTIVE_LOCALITY ||| TPM_ACCESS_VALID)) :
    check_locality env dev chip loc st =
      (some loc, { chip with locality := loc },
       { time := st.time + CR50_TIMEOUT_SHORT_MS, ioCount := st.ioCount + 1,
         events := st.events ++ [Event.readEvt (TPM_ACCESS loc) 1
           (some (readBytes env st.ioCount (TPM_ACCESS loc) 1))] }) := by
  rw [check_locality, iic_tpm_read_ok env dev (TPM_ACCESS loc) 1 st ha h1 h2]
  rw [readBytes_one]
  simp only [List.headD_cons]
  rw [if_pos h3]


/-! ### C8 -/

/-- C8: when locality `loc` is already owned (the access-register read
shows active-locality and valid both set), `request_locality` returns the
locality at once having performed exactly the single access-register read
and no register write at all. -/
theorem C8_request_idempotent (env : Env) (dev : TpmDev) (chip : Chip)
    (loc : Nat) (st : St) (ha : dev.addr ≠ 0)
    (h1 : env.addrWriteOk st.ioCount (TPM_ACCESS loc) = true)
    (h2 : env.readOk st.ioCount (TPM_ACCESS loc) 1 = true)
    (h3 : env.readByte st.ioCount (TPM_ACCESS loc) 0 % 256 &&&
        (TPM_ACCESS_ACTIVE_LOCALITY ||| TPM_ACCESS_VALID) =
        (TPM_ACCESS_ACTIVE_LOCALITY ||| TPM_ACCESS_VALID)) :
    request_locality env dev chip loc st =
      (some loc, { chip with locality := loc },
       { time := st.time + CR50_TIMEOUT_SHORT_MS, ioCount := st.ioCount + 1,
         events := st.events ++ [Event.readEvt (TPM_ACCESS loc) 1
           (some (readBytes env st.ioCount (TPM_ACCESS loc) 1))] }) ∧
    writeCount (newEvents st (request_locality env dev chip loc st).2.2) = 0 := by
  have hc := check_locality_owned env dev chip loc st ha h1 h2 h3
  have hr : request_locality env dev chip loc st =
      (some loc, { chip with locality := loc },
       { time := st.time + CR50_TIMEOUT_SHORT_MS, ioCount := st.ioCount + 1,
         events := st.events ++ [Event.readEvt (TPM_ACCESS loc) 1
           (some (readBytes env st.ioCount (TPM_ACCESS loc) 1))] }) := by
    rw [request_locality, hc]
  refine ⟨hr, ?_⟩
  rw [hr]
  simp [newEvents, writeCount, isWrite]

/-- A bus on which every operation succeeds and every read returns the byte
`0xA0` everywhere (active locality and valid bits both set). -/
def envOwned : Env :=
  { addrWriteOk := fun _ _ => true
    readOk := fun _ _ _ => true
    writeOk := fun _ _ _ => true
    readByte := fun _ _ _ => 0xA0 }

/-- C8 witness: a concrete request of an already-owned locality. -/
theorem C8_request_idempotent_witness :
    request_locality envOwned dev1 chip0 0 st0 =
      (some 0, { chip0 with locality := 0 },
       { time := st0.time + CR50_TIMEOUT_SHORT_MS, ioCount := st0.ioCount + 1,
         events := st0.events ++ [Event.readEvt (TPM_ACCESS 0) 1
           (some (readBytes envOwned st0.ioCount (TPM_ACCESS 0) 1))] }) ∧
    writeCount (newEvents st0 (request_locality envOwned dev1 chip0 0 st0).2.2) = 0 :=
  C8_request_idempotent envOwned dev1 chip0 0 st0 (by decide) rfl rfl (by decide)

/-! ### C3 -/

/-- C3 counterexample: with the bus failing, the access-register read of
`release_locality` fails, and the forced release performs no write at all
(the log holds exactly the one failed read); the claim that a forced
release always attempts a write even when the read fails is false. -/
theorem C3_release_counterexample :
    (release_locality envDead dev1 0 true st0).events =
      [Event.readEvt (TPM_ACCESS 0) 1 none] ∧
    writeCount (release_locality envDead dev1 0 true st0).events = 0 := by
  decide

/-- C3 (amended): when the access-register read succeeds, a forced release
always writes the active-locality bit regardless of the value read, and an
unforced release writes exactly when both the request-pending and valid
bits are set; when the access-register read fails, no write at all is
attempted. -/
theorem C3_release (env : Env) (dev : TpmDev) (loc : Nat) (force : Bool)
    (st : St) :
    (∀ st1, iic_tpm_read env dev (TPM_ACCESS loc) 1 st = (none, st1) →
      release_locality env dev loc force st = st1 ∧
      writeCount (newEvents st (release_locality env dev loc force st)) = 0) ∧
    (∀ buf st1, iic_tpm_read env dev (TPM_ACCESS loc) 1 st = (some buf, st1) →
      ((force = true ∨ buf.headD 0 &&& (TPM_ACCESS_REQUEST_PENDING ||| TPM_ACCESS_VALID) =
          (TPM_ACCESS_REQUEST_PENDING ||| TPM_ACCESS_VALID)) →
        ∃ b, (release_locality env dev loc force st).events = st1.events ++
          [Event.writeEvt (TPM_ACCESS loc) [TPM_ACCESS_ACTIVE_LOCALITY] b]) ∧
      ((force = false ∧ ¬ buf.headD 0 &&& (TPM_ACCESS_REQUEST_PENDING ||| TPM_ACCESS_VALID) =
          (TPM_ACCESS_REQUEST_PENDING ||| TPM_ACCESS_VALID)) →
        release_locality env dev loc force st = st1)) := by
  constructor
  · intro st1 h
    have hrel : release_locality env dev loc force st = st1 := by
      rw [release_locality, h]
    refine ⟨hrel, ?_⟩
    rw [hrel]
    have hsh := iic_tpm_read_shape env dev (TPM_ACCESS loc) 1 st
    rw [h] at hsh
    dsimp only at hsh
    rcases hsh with ⟨l, he, hl, _, _⟩
    apply writeCount_of_reads
    rw [newEvents_eq he]
    intro e hee
    rcases hl e hee with ⟨res, rfl⟩
    exact ⟨TPM_ACCESS loc, 1, res, rfl⟩
  · intro buf st1 h
    have haddr : dev.addr ≠ 0 := by
      intro h0
      rw [iic_tpm_read_addr0 env dev (TPM_ACCESS loc) 1 st h0] at h
      exact absurd h (by simp)
    constructor
    · intro hcond
      have hrel : release_locality env dev loc force st =
          (iic_tpm_write env dev (TPM_ACCESS loc) [TPM_ACCESS_ACTIVE_LOCALITY] st1).2 := by
        rw [release_locality, h]
        dsimp only
        rw [if_pos hcond]
      rcases iic_tpm_write_step env dev (TPM_ACCESS loc)
          [TPM_ACCESS_ACTIVE_LOCALITY] st1 haddr (by simp [CR50_MAX_BUFSIZE]) with
        ⟨b, t, heq, _, _⟩
      refine ⟨b, ?_⟩
      rw [hrel, heq]
    · rintro ⟨hf, hb⟩
      rw [release_locality, h]
      dsimp only
      rw [if_neg]
      rintro (hcc | hcc)
      · rw [hf] at hcc
        exact absurd hcc (by simp)
      · exact absurd hcc hb

/-- C3 witness: with a successful access-register read, a forced release
does issue the active-locality write. -/
theorem C3_release_witness :
    ∃ b, (release_locality envOwned dev1 0 true st0).events =
      [Event.readEvt (TPM_ACCESS 0) 1 (some [0xA0]),
       Event.writeEvt (TPM_ACCESS 0) [TPM_ACCESS_ACTIVE_LOCALITY] b] := by
  have h := ((C3_release envOwned dev1 0 true st0).2 [0xA0]
    { time := 2, ioCount := 1, events := [Event.readEvt (TPM_ACCESS 0) 1 (some [0xA0])] }
    (by decide)).1 (Or.inl rfl)
  rcases h with ⟨b, hb⟩
  exact ⟨b, by rw [hb]; rfl⟩

/-! ### C4: every polling loop times out rather than spinning forever -/

/-- An access-register read at operation `idx` would succeed and show the
locality owned (active-locality and valid bits set). -/
def accessOwnedAt (env : Env) (idx loc : Nat) : Prop :=
  env.addrWriteOk idx (TPM_ACCESS loc) = true ∧
  env.readOk idx (TPM_ACCESS loc) 1 = true ∧
  env.readByte idx (TPM_ACCESS loc) 0 % 256 &&&
    (TPM_ACCESS_ACTIVE_LOCALITY ||| TPM_ACCESS_VALID) =
    (TPM_ACCESS_ACTIVE_LOCALITY ||| TPM_ACCESS_VALID)

/-- A status read at operation `idx` would succeed with the command-ready
bit set. -/
def stsReadyAt (env : Env) (idx loc : Nat) : Prop :=
  env.addrWriteOk idx (TPM_STS loc) = true ∧
  env.readOk idx (TPM_STS loc) 4 = true ∧
  env.readByte idx (TPM_STS loc) 0 % 256 &&& TPM_STS_COMMAND_READY ≠ 0

theorem check_locality_fails (env : Env) (dev : TpmDev) (chip : Chip)
    (loc : Nat) (st : St) (h : ¬ accessOwnedAt env st.ioCount loc) :
    ∃ st1, check_locality env dev chip loc st = (none, chip, st1) ∧
      st.time ≤ st1.time ∧ st1.time ≤ st.time + CR50_TIMEOUT_SHORT_MS := by
  by_cases ha : dev.addr = 0
  · refine ⟨st, ?_, Nat.le_refl _, Nat.le_add_right _ _⟩
    rw [check_locality, iic_tpm_read_addr0 env dev _ 1 st ha]
  · rcases h1 : env.addrWriteOk st.ioCount (TPM_ACCESS loc) with _ | _
    · refine ⟨⟨st.time, st.ioCount + 1,
        st.events ++ [Event.readEvt (TPM_ACCESS loc) 1 none]⟩, ?_,
        Nat.le_refl _, Nat.le_add_right _ _⟩
      rw [check_locality, iic_tpm_read_awfail env dev _ 1 st ha h1]
    · rcases h2 : env.readOk st.ioCount (TPM_ACCESS loc) 1 with _ | _
      · refine ⟨⟨st.time + CR50_TIMEOUT_SHORT_MS, st.ioCount + 1,
          st.events ++ [Event.readEvt (TPM_ACCESS loc) 1 none]⟩, ?_,
          Nat.le_add_right _ _, Nat.le_refl _⟩
        rw [check_locality, iic_tpm_read_readfail env dev _ 1 st ha h1 h2]
      · have h3 : ¬ env.readByte st.ioCount (TPM_ACCESS loc) 0 % 256 &&&
            (TPM_ACCESS_ACTIVE_LOCALITY ||| TPM_ACCESS_VALID) =
            (TPM_ACCESS_ACTIVE_LOCALITY ||| TPM_ACCESS_VALID) := by
          intro hx
          exact h ⟨h1, h2, hx⟩
        refine ⟨⟨st.time + CR50_TIMEOUT_SHORT_MS, st.ioCount + 1,
          st.events ++ [Event.readEvt (TPM_ACCESS loc) 1
            (some (readBytes env st.ioCount (TPM_ACCESS loc) 1))]⟩, ?_,
          Nat.le_add_right _ _, Nat.le_refl _⟩
        rw [check_locality, iic_tpm_read_ok env dev _ 1 st ha h1 h2]
        conv_lhs => rw [readBytes_one]
        simp only [List.headD_cons]
        rw [if_neg h3, readBytes_one]

theorem reqLoop_never (env : Env) (dev : TpmDev) (loc : Nat)
    (h : ∀ idx, ¬ accessOwnedAt env idx loc) :
    ∀ t chip st, ∃ chip1 st1,
      reqLoop env dev loc t chip st = (none, chip1, st1) ∧
      st.time + t * TPM_TIMEOUT ≤ st1.time ∧
      st1.time ≤ st.time + t * (TPM_TIMEOUT + CR50_TIMEOUT_SHORT_MS) := by
  intro t
  induction t with
  | zero => intro chip st; exact ⟨chip, st, rfl, by simp, by simp⟩
  | succ t ih =>
    intro chip st
    rcases check_locality_fails env dev chip loc st (h st.ioCount) with ⟨st1, hc, ht1, ht1u⟩
    rcases ih chip (mdelay TPM_TIMEOUT st1) with ⟨chip1, st2, hl, ht2, ht2u⟩
    refine ⟨chip1, st2, ?_, ?_, ?_⟩
    · rw [reqLoop, hc]
      exact hl
    · simp only [mdelay, TPM_TIMEOUT] at ht2 ⊢
      omega
    · simp only [mdelay, TPM_TIMEOUT, CR50_TIMEOUT_SHORT_MS] at ht2u ht1u ⊢
      omega

theorem request_locality_never (env : Env) (dev : TpmDev) (chip : Chip)
    (loc : Nat) (st : St) (h : ∀ idx, ¬ accessOwnedAt env idx loc) :
    ∃ chip1 st1, request_locality env dev chip loc st = (none, chip1, st1) ∧
      st.time + 2000 * TPM_TIMEOUT ≤ st1.time ∧
      st1.time ≤ st.time + 2 * CR50_TIMEOUT_SHORT_MS +
        2000 * (TPM_TIMEOUT + CR50_TIMEOUT_SHORT_MS) := by
  rcases check_locality_fails env dev chip loc st (h st.ioCount) with ⟨st1, hc, ht1, ht1u⟩
  rcases iic_tpm_write_shape env dev (TPM_ACCESS loc) [TPM_ACCESS_REQUEST_USE] st1 with
    ⟨_, _, _, htw, _⟩
  rcases iic_tpm_write_shape env dev (TPM_ACCESS loc) [TPM_ACCESS_REQUEST_USE] st1 with
    ⟨_, _, _, _, htwu⟩
  rcases reqLoop_never env dev loc h 2000 chip
      (iic_tpm_write env dev (TPM_ACCESS loc) [TPM_ACCESS_REQUEST_USE] st1).2 with
    ⟨chip1, st2, hl, ht2, ht2u⟩
  refine ⟨chip1, st2, ?_, ?_, ?_⟩
  · rw [request_locality, hc]
    exact hl
  · omega
  · simp only [TPM_TIMEOUT, CR50_TIMEOUT_SHORT_MS] at ht1u htwu ht2u ⊢
    omega

theorem cr50_status_notReady (env : Env) (dev : TpmDev) (chip : Chip) (st : St)
    (h : ¬ stsReadyAt env st.ioCount chip.locality) :
    (cr50_tis_i2c_status env dev chip st).1 &&& TPM_STS_COMMAND_READY = 0 ∧
    st.time ≤ (cr50_tis_i2c_status env dev chip st).2.time ∧
    (cr50_tis_i2c_status env dev chip st).2.time ≤ st.time + CR50_TIMEOUT_SHORT_MS := by
  by_cases ha : dev.addr = 0
  · rw [cr50_status_addr0 env dev chip st ha]
    exact ⟨by simp, Nat.le_refl _, Nat.le_add_right _ _⟩
  · rcases h1 : env.addrWriteOk st.ioCount (TPM_STS chip.locality) with _ | _
    · rw [cr50_tis_i2c_status, iic_tpm_read_awfail env dev _ 4 st ha h1]
      exact ⟨by simp, Nat.le_refl _, Nat.le_add_right _ _⟩
    · rcases h2 : env.readOk st.ioCount (TPM_STS chip.locality) 4 with _ | _
      · rw [cr50_tis_i2c_status, iic_tpm_read_readfail env dev _ 4 st ha h1 h2]
        exact ⟨by simp, Nat.le_add_right _ _, Nat.le_refl _⟩
      · have h3 : env.readByte st.ioCount (TPM_STS chip.locality) 0 % 256 &&&
            TPM_STS_COMMAND_READY = 0 := by
          by_contra hx
          exact h ⟨h1, h2, hx⟩
        rw [cr50_tis_i2c_status, iic_tpm_read_ok env dev _ 4 st ha h1 h2, readBytes_four]
        exact ⟨by simpa using h3, Nat.le_add_right _ _, Nat.le_refl _⟩

theorem readyLoop_never (env : Env) (dev : TpmDev) (chip : Chip) (dl : Nat)
    (h : ∀ idx, ¬ stsReadyAt env idx chip.locality) :
    ∀ f st, dl ≤ st.time + 2 * f →
      ∃ st', readyLoop env dev chip dl (f + 1) st = (ReadyRes.timeoutErr, st') ∧
        dl ≤ st'.time ∧ (st.time ≤ dl + 4 → st'.time ≤ dl + 6) := by
  intro f
  induction f with
  | zero =>
    intro st hf
    rcases hs : cr50_tis_i2c_status env dev chip st with ⟨s, st1⟩
    have hn := cr50_status_notReady env dev chip st (h st.ioCount)
    rw [hs] at hn
    dsimp only at hn
    rcases hn with ⟨hclear, ht1, htu⟩
    refine ⟨st1, ?_, by omega, ?_⟩
    · rw [readyLoop, hs]
      dsimp only
      rw [if_neg (by simp [hclear]), if_pos (by omega)]
    · simp only [CR50_TIMEOUT_SHORT_MS] at htu
      omega
  | succ f ih =>
    intro st hf
    rcases hs : cr50_tis_i2c_status env dev chip st with ⟨s, st1⟩
    have hn := cr50_status_notReady env dev chip st (h st.ioCount)
    rw [hs] at hn
    dsimp only at hn
    rcases hn with ⟨hclear, ht1, htu⟩
    by_cases hdl : dl ≤ st1.time
    · refine ⟨st1, ?_, hdl, ?_⟩
      · rw [readyLoop, hs]
        dsimp only
        rw [if_neg (by simp [hclear]), if_pos hdl]
      · simp only [CR50_TIMEOUT_SHORT_MS] at htu
        omega
    · rcases cr50_ready_shape env dev chip st1 with ⟨_, _, _, htr, htru⟩
      rcases ih (cr50_tis_i2c_ready env dev chip st1) (by
        simp only [CR50_TIMEOUT_SHORT_MS] at htr
        omega) with ⟨st2, hl, ht2, ht2u⟩
      refine ⟨st2, ?_, ht2, ?_⟩
      · rw [readyLoop, hs]
        dsimp only
        rw [if_neg (by simp [hclear]), if_neg hdl]
        exact hl
      · intro _
        apply ht2u
        simp only [CR50_TIMEOUT_SHORT_MS] at htru
        omega

theorem send_ready_never (env : Env) (dev : TpmDev) (chip : Chip)
    (buf : List Nat) (st : St)
    (h : ∀ idx, ¬ stsReadyAt env idx chip.locality) :
    ∃ st1, cr50_tis_i2c_send env dev chip buf st = (SendRes.err, st1) ∧
      st.time + 2000 ≤ st1.time ∧ st1.time ≤ st.time + 2006 := by
  have h1001 : (1001 : Nat) = 1000 + 1 := rfl
  rcases readyLoop_never env dev chip (st.time + CR50_TIMEOUT_LONG_MS) h 1000 st
    (by simp [CR50_TIMEOUT_LONG_MS]) with ⟨st1, hl, ht, htu⟩
  refine ⟨st1, ?_, by simpa [CR50_TIMEOUT_LONG_MS] using ht, ?_⟩
  · rw [cr50_tis_i2c_send]
    rw [h1001, hl]
  · simp only [CR50_TIMEOUT_LONG_MS] at htu
    omega

/-- C4: each polling loop of the driver, run against a chip that never
satisfies the loop condition, terminates with its timeout error near its
configured bound instead of spinning forever: locality acquisition after
its 2000 counted attempts (elapsing at least the 2000 `TPM_TIMEOUT`-ms
delays and at most 2 ms per register read on top), the burst/status wait
within [2000, 2003] ms of entry, and the command-ready wait of send within
[2000, 2006] ms of entry. -/
theorem C4_polling_timeouts :
    (∀ env dev chip loc st, (∀ idx, ¬ accessOwnedAt env idx loc) →
      ∃ chip1 st1, request_locality env dev chip loc st = (none, chip1, st1) ∧
        st.time + 2000 * TPM_TIMEOUT ≤ st1.time ∧
        st1.time ≤ st.time + 2 * CR50_TIMEOUT_SHORT_MS +
          2000 * (TPM_TIMEOUT + CR50_TIMEOUT_SHORT_MS)) ∧
    (∀ env dev chip mask st, (∀ idx, ¬ stsQualify env idx chip.locality mask) →
      ∃ st1, cr50_wait_burst_status env dev chip mask st = (WaitRes.timeout, st1) ∧
        st.time + 2000 ≤ st1.time ∧ st1.time ≤ st.time + 2003) ∧
    (∀ env dev chip buf st, (∀ idx, ¬ stsReadyAt env idx chip.locality) →
      ∃ st1, cr50_tis_i2c_send env dev chip buf st = (SendRes.err, st1) ∧
        st.time + 2000 ≤ st1.time ∧ st1.time ≤ st.time + 2006) := by
  refine ⟨request_locality_never, ?_, send_ready_never⟩
  intro env dev chip mask st hn
  rcases wait_never env dev chip mask st hn with ⟨st1, heq, ht1, ht2⟩
  exact ⟨st1, heq, by simpa [CR50_TIMEOUT_LONG_MS] using ht1,
    by simpa [CR50_TIMEOUT_LONG_MS] using ht2⟩

/-- C4 witness: on a bus where every operation fails, all three loops
time out. -/
theorem C4_polling_timeouts_witness :
    (∃ chip1 st1, request_locality envDead dev1 chip0 0 st0 = (none, chip1, st1) ∧
      st0.time + 2000 * TPM_TIMEOUT ≤ st1.time ∧
      st1.time ≤ st0.time + 2 * CR50_TIMEOUT_SHORT_MS +
        2000 * (TPM_TIMEOUT + CR50_TIMEOUT_SHORT_MS)) ∧
    (∃ st1, cr50_wait_burst_status envDead dev1 chip0 TPM_STS_VALID st0 =
        (WaitRes.timeout, st1) ∧
      st0.time + 2000 ≤ st1.time ∧ st1.time ≤ st0.time + 2003) ∧
    (∃ st1, cr50_tis_i2c_send envDead dev1 chip0 [1] st0 = (SendRes.err, st1) ∧
      st0.time + 2000 ≤ st1.time ∧ st1.time ≤ st0.time + 2006) := by
  refine ⟨C4_polling_timeouts.1 envDead dev1 chip0 0 st0 ?_,
    C4_polling_timeouts.2.1 envDead dev1 chip0 TPM_STS_VALID st0 ?_,
    C4_polling_timeouts.2.2 envDead dev1 chip0 [1] st0 ?_⟩ <;>
      intro idx <;>
        simp [accessOwnedAt, stsQualify, stsReadyAt, envDead, stsByteAt, burstAt]

/-! ### C7: oversized responses are rejected before any further I/O -/

/-- C7: when the first status poll qualifies with data available and the
expected length decoded from the first FIFO chunk exceeds the destination
capacity, `cr50_tis_i2c_recv` fails after exactly those two reads: the
final operation count is the entry count plus two and the log gains
exactly the status read and the FIFO read, so no further FIFO read or
status poll happens after the length is decoded. -/
theorem C7_recv_too_large (env : Env) (dev : TpmDev) (chip : Chip)
    (buf : List Nat) (st : St) (ha : dev.addr ≠ 0)
    (h1 : env.addrWriteOk st.ioCount (TPM_STS chip.locality) = true)
    (h2 : env.readOk st.ioCount (TPM_STS chip.locality) 4 = true)
    (hq : stsQualify env st.ioCount chip.locality TPM_STS_VALID)
    (havail : stsByteAt env st.ioCount chip.locality &&& TPM_STS_DATA_AVAIL ≠ 0)
    (h3 : env.addrWriteOk (st.ioCount + 1) (TPM_DATA_FIFO chip.locality) = true)
    (h4 : env.readOk (st.ioCount + 1) (TPM_DATA_FIFO chip.locality)
        (burstAt env st.ioCount chip.locality) = true)
    (hhdr : TPM_HEADER_SIZE ≤ buf.length)
    (hbig : buf.length < read_be32 ((writeBytes buf 0
        (readBytes env (st.ioCount + 1) (TPM_DATA_FIFO chip.locality)
          (burstAt env st.ioCount chip.locality))).drop TPM_RSP_SIZE_BYTE)) :
    (cr50_tis_i2c_recv env dev chip buf st).1 = RecvRes.err ∧
    (cr50_tis_i2c_recv env dev chip buf st).2.2.ioCount = st.ioCount + 2 ∧
    (cr50_tis_i2c_recv env dev chip buf st).2.2.events = st.events ++
      [Event.readEvt (TPM_STS chip.locality) 4
         (some (readBytes env st.ioCount (TPM_STS chip.locality) 4)),
       Event.readEvt (TPM_DATA_FIFO chip.locality)
         (burstAt env st.ioCount chip.locality)
         (some (readBytes env (st.ioCount + 1) (TPM_DATA_FIFO chip.locality)
           (burstAt env st.ioCount chip.locality)))] := by
  have hrecv : cr50_tis_i2c_recv env dev chip buf st =
      (RecvRes.err,
       writeBytes buf 0 (readBytes env (st.ioCount + 1) (TPM_DATA_FIFO chip.locality)
         (burstAt env st.ioCount chip.locality)),
       ⟨st.time + 2 * CR50_TIMEOUT_SHORT_MS, st.ioCount + 2,
        st.events ++
          [Event.readEvt (TPM_STS chip.locality) 4
            (some (readBytes env st.ioCount (TPM_STS chip.locality) 4)),
           Event.readEvt (TPM_DATA_FIFO chip.locality)
             (burstAt env st.ioCount chip.locality)
             (some (readBytes env (st.ioCount + 1) (TPM_DATA_FIFO chip.locality)
               (burstAt env st.ioCount chip.locality)))]⟩) := by
    rw [cr50_tis_i2c_recv]
    dsimp only
    rw [if_neg (by omega)]
    rw [wait_first env dev chip TPM_STS_VALID st ha h1 h2 hq]
    dsimp only
    rw [if_neg havail]
    rw [iic_tpm_read_ok env dev (TPM_DATA_FIFO chip.locality) _ _ ha h3 h4]
    dsimp only
    rw [if_pos hbig]
    simp [List.append_assoc, Nat.add_assoc, two_mul]
  rw [hrecv]
  refine ⟨rfl, rfl, by simp⟩

/-- A bus for the C7 witness: status reads show valid and data available
with burst 10, FIFO reads return 0xFF bytes so the decoded expected length
is far beyond any buffer. -/
def env7 : Env :=
  { addrWriteOk := fun _ _ => true
    readOk := fun _ _ _ => true
    writeOk := fun _ _ _ => true
    readByte := fun _ reg off =>
      if reg = TPM_STS 0 then (if off = 0 then 0x90 else if off = 1 then 10 else 0)
      else 0xFF }

/-- C7 witness: a concrete oversized response is rejected after exactly
two reads. -/
theorem C7_recv_too_large_witness :
    (cr50_tis_i2c_recv env7 dev1 chip0 (List.replicate 20 0) st0).1 = RecvRes.err ∧
    (cr50_tis_i2c_recv env7 dev1 chip0 (List.replicate 20 0) st0).2.2.ioCount =
      st0.ioCount + 2 := by
  have h := C7_recv_too_large env7 dev1 chip0 (List.replicate 20 0) st0
    (by decide) rfl rfl ⟨by decide, by decide, by decide⟩ (by decide) rfl rfl
    (by decide) (by decide)
  exact ⟨h.1, h.2.1⟩

/-! ### C1: receive, FIFO byte accounting -/

theorem sts_ne_fifo (loc : Nat) : TPM_STS loc ≠ TPM_DATA_FIFO loc := by
  simp only [TPM_STS, TPM_DATA_FIFO]
  omega

theorem fifoReadBytes_append (loc : Nat) (a b : List Event) :
    fifoReadBytes loc (a ++ b) = fifoReadBytes loc a + fifoReadBytes loc b := by
  simp [fifoReadBytes]

theorem fifoReadBytes_sts (loc : Nat) {l : List Event}
    (h : ∀ e ∈ l, ∃ res, e = Event.readEvt (TPM_STS loc) 4 res) :
    fifoReadBytes loc l = 0 := by
  rw [fifoReadBytes]
  apply List.sum_eq_zero
  intro x hx
  rcases List.mem_map.mp hx with ⟨e, he, rfl⟩
  rcases h e he with ⟨res, rfl⟩
  rcases res with _ | bs
  · rfl
  · simp [sts_ne_fifo loc]

theorem fifoReadBytes_fifo_evt (loc len : Nat) (bs : List Nat) :
    fifoReadBytes loc [Event.readEvt (TPM_DATA_FIFO loc) len (some bs)] = len := by
  simp [fifoReadBytes]

theorem recvLoop_ok (env : Env) (dev : TpmDev) (chip : Chip) (expected : Nat) :
    ∀ fuel current buf st n bufF stF,
      recvLoop env dev chip expected fuel current buf st = (RecvRes.ok n, bufF, stF) →
      current ≤ expected →
      n = expected ∧ ∃ l, stF.events = st.events ++ l ∧
        fifoReadBytes chip.locality l = expected - current := by
  intro fuel
  induction fuel with
  | zero =>
    intro current buf st n bufF stF h hle
    simp [recvLoop] at h
  | succ f ih =>
    intro current buf st n bufF stF h hle
    rw [recvLoop] at h
    split at h <;> rename_i hcur
    · simp only [Prod.mk.injEq, RecvRes.ok.injEq] at h
      obtain ⟨hn, _, hstF⟩ := h
      subst hn
      subst hstF
      refine ⟨by omega, [], by simp, ?_⟩
      simp only [fifoReadBytes, List.map_nil, List.sum_nil]
      omega
    · rcases hw : cr50_wait_burst_status env dev chip TPM_STS_VALID st with ⟨wr, st1⟩
      rw [hw] at h
      rcases wr with _ | _ | _
      case timeout => exact absurd h (by simp)
      case fuelOut => exact absurd h (by simp)
      case ok s b =>
        dsimp only at h
        split at h <;> rename_i havail
        · exact absurd h (by simp)
        · rcases hr : iic_tpm_read env dev (TPM_DATA_FIFO chip.locality)
              (min b (expected - current)) st1 with ⟨res, st2⟩
          rw [hr] at h
          rcases res with _ | bytes
          · exact absurd h (by simp)
          · obtain ⟨hbytes, hst2⟩ := iic_tpm_read_some env dev _ _ _ _ _ hr
            have hlen : min b (expected - current) ≤ expected - current :=
              Nat.min_le_right _ _
            rcases ih (current + min b (expected - current))
                (writeBytes buf current bytes) st2 n bufF stF h (by omega) with
              ⟨hn, l2, he2, hfifo2⟩
            refine ⟨hn, ?_⟩
            have hsh := wait_shape env dev chip TPM_STS_VALID st
            rw [hw] at hsh
            dsimp only at hsh
            rcases hsh with ⟨l0, he0, hl0, _⟩
            refine ⟨l0 ++ [Event.readEvt (TPM_DATA_FIFO chip.locality)
              (min b (expected - current)) (some bytes)] ++ l2, ?_, ?_⟩
            · rw [he2, hst2]
              dsimp only
              rw [he0]
              simp [List.append_assoc]
            · rw [fifoReadBytes_append, fifoReadBytes_append,
                fifoReadBytes_sts chip.locality hl0, fifoReadBytes_fifo_evt, hfifo2]
              omega

/-- The chip behaviour of the C1 counterexample: first status read reports
valid, data available and burst 11; the 11-byte FIFO chunk carries a
header declaring 10 bytes; the final status read shows no more data. -/
def env1 : Env :=
  { addrWriteOk := fun _ _ => true
    readOk := fun _ _ _ => true
    writeOk := fun _ _ _ => true
    readByte := fun idx _ off =>
      if idx = 0 then (if off = 0 then 0x90 else if off = 1 then 11 else 0)
      else if idx = 1 then (if off = 5 then 10 else 0)
      else (if off = 0 then 0x80 else if off = 1 then 1 else 0) }

/-- The chip behaviour of the C1 witness: burst 10, declared length 10. -/
def env1w : Env :=
  { addrWriteOk := fun _ _ => true
    readOk := fun _ _ _ => true
    writeOk := fun _ _ _ => true
    readByte := fun idx _ off =>
      if idx = 0 then (if off = 0 then 0x90 else if off = 1 then 10 else 0)
      else if idx = 1 then (if off = 5 then 10 else 0)
      else (if off = 0 then 0x80 else if off = 1 then 1 else 0) }

/-- C1 counterexample: a chip reporting a first burst count of 11 while the
response header declares a total length of 10 makes `cr50_tis_i2c_recv`
read 11 FIFO bytes, one past the declared length, and report success with
return value 11, not the declared 10. -/
theorem C1_recv_counterexample :
    (cr50_tis_i2c_recv env1 dev1 chip0 (List.replicate 20 0) st0).1 = RecvRes.ok 11 ∧
    fifoReadBytes 0 (newEvents st0
      (cr50_tis_i2c_recv env1 dev1 chip0 (List.replicate 20 0) st0).2.2) = 11 ∧
    read_be32 ((cr50_tis_i2c_recv env1 dev1 chip0
      (List.replicate 20 0) st0).2.1.drop TPM_RSP_SIZE_BYTE) = 10 := by
  decide

/-- C1 (amended): provided the first chunk's burst count does not exceed
the expected length declared in the header, a successful receive reads
exactly the declared number of FIFO bytes and returns it.  (When the first
burst count exceeds the declared length, the first chunk already reads
past it and the call returns the larger count.) -/
theorem C1_recv_length (env : Env) (dev : TpmDev) (chip : Chip)
    (buf : List Nat) (st : St) (s0 b0 : Nat) (st1 : St) (e : Nat)
    (ha : dev.addr ≠ 0)
    (hw : cr50_wait_burst_status env dev chip TPM_STS_VALID st = (WaitRes.ok s0 b0, st1))
    (hre : env.addrWriteOk st1.ioCount (TPM_DATA_FIFO chip.locality) = true)
    (hro : env.readOk st1.ioCount (TPM_DATA_FIFO chip.locality) b0 = true)
    (he : e = read_be32 ((writeBytes buf 0
      (readBytes env st1.ioCount (TPM_DATA_FIFO chip.locality) b0)).drop TPM_RSP_SIZE_BYTE))
    (hble : b0 ≤ e) :
    ∀ r bufF stF, cr50_tis_i2c_recv env dev chip buf st = (RecvRes.ok r, bufF, stF) →
      r = e ∧ fifoReadBytes chip.locality (newEvents st stF) = e := by
  intro r bufF stF hrec
  rw [cr50_tis_i2c_recv] at hrec
  dsimp only at hrec
  split at hrec <;> rename_i hhdr
  · exact absurd hrec (by simp)
  · rw [hw] at hrec
    dsimp only at hrec
    split at hrec <;> rename_i havail
    · exact absurd hrec (by simp)
    · rw [iic_tpm_read_ok env dev (TPM_DATA_FIFO chip.locality) b0 st1 ha hre hro] at hrec
      dsimp only at hrec
      rw [← he] at hrec
      split at hrec <;> rename_i hbig
      · exact absurd hrec (by simp)
      · rcases hl : recvLoop env dev chip e (e + 1) b0
            (writeBytes buf 0 (readBytes env st1.ioCount (TPM_DATA_FIFO chip.locality) b0))
            ⟨st1.time + CR50_TIMEOUT_SHORT_MS, st1.ioCount + 1,
             st1.events ++ [Event.readEvt (TPM_DATA_FIFO chip.locality) b0
               (some (readBytes env st1.ioCount (TPM_DATA_FIFO chip.locality) b0))]⟩ with
          ⟨lr, buf2, st3⟩
        rw [hl] at hrec
        rcases lr with _ | _ | _
        case err => exact absurd hrec (by simp)
        case fuelOut => exact absurd hrec (by simp)
        case ok current =>
          dsimp only at hrec
          rcases recvLoop_ok env dev chip e (e + 1) b0 _ _ current buf2 st3 hl hble with
            ⟨hcur, l2, he2, hfifo2⟩
          subst hcur
          rcases hw2 : cr50_wait_burst_status env dev chip TPM_STS_VALID st3 with ⟨wr2, st4⟩
          rw [hw2] at hrec
          rcases wr2 with _ | _ | _
          case timeout => exact absurd hrec (by simp)
          case fuelOut => exact absurd hrec (by simp)
          case ok s2 b2 =>
            dsimp only at hrec
            split at hrec <;> rename_i havail2
            · exact absurd hrec (by simp)
            · simp only [Prod.mk.injEq, RecvRes.ok.injEq] at hrec
              obtain ⟨hr, _, hstF⟩ := hrec
              subst hstF
              refine ⟨hr.symm, ?_⟩
              have hsh0 := wait_shape env dev chip TPM_STS_VALID st
              rw [hw] at hsh0
              dsimp only at hsh0
              rcases hsh0 with ⟨l0, he0, hl0, _⟩
              have hsh3 := wait_shape env dev chip TPM_STS_VALID st3
              rw [hw2] at hsh3
              dsimp only at hsh3
              rcases hsh3 with ⟨l3, he3, hl3, _⟩
              have hall : st4.events = st.events ++ (l0 ++
                  [Event.readEvt (TPM_DATA_FIFO chip.locality) b0
                    (some (readBytes env st1.ioCount (TPM_DATA_FIFO chip.locality) b0))] ++
                  l2 ++ l3) := by
                rw [he3, he2]
                dsimp only
                rw [he0]
                simp [List.append_assoc]
              rw [newEvents_eq hall]
              rw [fifoReadBytes_append, fifoReadBytes_append, fifoReadBytes_append,
                fifoReadBytes_sts chip.locality hl0, fifoReadBytes_fifo_evt,
                fifoReadBytes_sts chip.locality hl3, hfifo2]
              omega

/-- C1 witness: a receive in which the first burst count 10 equals the
declared length 10 returns exactly 10 having read exactly 10 FIFO bytes. -/
theorem C1_recv_length_witness :
    (10 : Nat) = 10 ∧ fifoReadBytes 0 (newEvents st0
      (cr50_tis_i2c_recv env1w dev1 chip0 (List.replicate 20 0) st0).2.2) = 10 :=
  C1_recv_length env1w dev1 chip0 (List.replicate 20 0) st0 0x90 10
    ⟨2, 1, [Event.readEvt (TPM_STS 0) 4 (some [0x90, 10, 0, 0])]⟩ 10
    (by decide) (by decide) rfl rfl (by decide) (by decide)
    10 (cr50_tis_i2c_recv env1w dev1 chip0 (List.replicate 20 0) st0).2.1
    (cr50_tis_i2c_recv env1w dev1 chip0 (List.replicate 20 0) st0).2.2
    (by decide)


/-! ### C5: send chunking -/

/-- The chunk schedule the spec describes: repeatedly take
`min(b - 1, remaining)` until nothing remains (the first argument of the
recursion is fuel; `chunkSched` supplies enough for any `b ≥ 2`). -/
def chunkSchedGo (b : Nat) : Nat → Nat → List Nat
  | 0, _ => []
  | fuel + 1, len =>
    if len = 0 then []
    else min (b - 1) len :: chunkSchedGo b fuel (len - min (b - 1) len)

/-- The chunk schedule for a command of length `L` at constant burst `b`. -/
def chunkSched (b L : Nat) : List Nat := chunkSchedGo b L L

theorem fifoWriteSizes_append (loc : Nat) (a b : List Event) :
    fifoWriteSizes loc (a ++ b) = fifoWriteSizes loc a ++ fifoWriteSizes loc b := by
  simp [fifoWriteSizes]

theorem fifoWriteSizes_sts {loc : Nat} {l : List Event}
    (h : ∀ e ∈ l, (∃ res, e = Event.readEvt (TPM_STS loc) 4 res) ∨
      (∃ bb, e = Event.writeEvt (TPM_STS loc) [TPM_STS_COMMAND_READY, 0, 0, 0] bb)) :
    fifoWriteSizes loc l = [] := by
  rw [fifoWriteSizes, List.filterMap_eq_nil_iff]
  intro e he
  rcases h e he with ⟨res, rfl⟩ | ⟨bb, rfl⟩
  · rfl
  · simp [sts_ne_fifo loc]

theorem fifoWriteSizes_reads {loc : Nat} {l : List Event}
    (h : ∀ e ∈ l, ∃ res, e = Event.readEvt (TPM_STS loc) 4 res) :
    fifoWriteSizes loc l = [] :=
  fifoWriteSizes_sts (fun e he => Or.inl (h e he))

theorem fifoWriteSizes_fifo_evt (loc : Nat) (data : List Nat) (b : Bool) :
    fifoWriteSizes loc [Event.writeEvt (TPM_DATA_FIFO loc) data b] = [data.length] := by
  simp [fifoWriteSizes]

theorem iic_tpm_write_true (env : Env) (dev : TpmDev) (reg : Nat)
    (data : List Nat) (st st2 : St)
    (h : iic_tpm_write env dev reg data st = (true, st2)) :
    st2.events = st.events ++ [Event.writeEvt reg data true] ∧
    st2.ioCount = st.ioCount + 1 ∧ st.time ≤ st2.time := by
  by_cases ha : dev.addr = 0
  · rw [iic_tpm_write_addr0 env dev reg data st ha] at h
    exact absurd h (by simp)
  · by_cases hlen : CR50_MAX_BUFSIZE < data.length
    · rw [iic_tpm_write] at h
      rw [if_neg ha, if_pos hlen] at h
      exact absurd h (by simp)
    · rcases hok : env.writeOk st.ioCount reg data with _ | _
      · rw [iic_tpm_write] at h
        rw [if_neg ha, if_neg hlen] at h
        dsimp only at h
        rw [hok] at h
        exact absurd h (by simp)
      · rw [iic_tpm_write] at h
        rw [if_neg ha, if_neg hlen] at h
        dsimp only at h
        rw [hok] at h
        simp only [if_true, Prod.mk.injEq, mdelay] at h
        obtain ⟨_, h2⟩ := h
        subst h2
        exact ⟨rfl, rfl, Nat.le_add_right _ _⟩

theorem readyLoop_shape (env : Env) (dev : TpmDev) (chip : Chip) (dl : Nat) :
    ∀ fuel st, ∃ l, (readyLoop env dev chip dl fuel st).2.events = st.events ++ l ∧
      ∀ e ∈ l, (∃ res, e = Event.readEvt (TPM_STS chip.locality) 4 res) ∨
        (∃ bb, e = Event.writeEvt (TPM_STS chip.locality)
          [TPM_STS_COMMAND_READY, 0, 0, 0] bb) := by
  intro fuel
  induction fuel with
  | zero =>
    intro st
    exact ⟨[], by simp [readyLoop], by simp⟩
  | succ f ih =>
    intro st
    rcases hs : cr50_tis_i2c_status env dev chip st with ⟨s, st1⟩
    have hsh := cr50_status_shape env dev chip st
    rw [hs] at hsh
    dsimp only at hsh
    rcases hsh with ⟨l1, he1, hl1, _, _⟩
    rw [readyLoop, hs]
    dsimp only
    split
    · exact ⟨l1, he1, fun e he => Or.inl (hl1 e he)⟩
    · split
      · exact ⟨l1, he1, fun e he => Or.inl (hl1 e he)⟩
      · rcases cr50_ready_shape env dev chip st1 with ⟨l2, he2, hl2, _, _⟩
        rcases ih (cr50_tis_i2c_ready env dev chip st1) with ⟨l3, he3, hl3⟩
        refine ⟨l1 ++ (l2 ++ l3), ?_, ?_⟩
        · rw [he3, he2, he1]
          simp [List.append_assoc]
        · intro e he
          rcases List.mem_append.mp he with hh | hh
          · exact Or.inl (hl1 e hh)
          · rcases List.mem_append.mp hh with hh2 | hh2
            · exact Or.inr (hl2 e hh2)
            · exact hl3 e hh2

theorem xmitLoop_done (env : Env) (dev : TpmDev) (chip : Chip) (buf : List Nat) :
    ∀ fuel sent len st n stF,
      xmitLoop env dev chip buf fuel sent len st = (XmitRes.done, n, stF) →
      sent + len = buf.length →
      n = buf.length ∧ ∃ l, stF.events = st.events ++ l ∧
        (fifoWriteSizes chip.locality l).sum = len := by
  intro fuel
  induction fuel with
  | zero =>
    intro sent len st n stF h hinv
    simp [xmitLoop] at h
  | succ f ih =>
    intro sent len st n stF h hinv
    rw [xmitLoop] at h
    split at h <;> rename_i hlen0
    · obtain ⟨hn, hstF⟩ : sent = n ∧ st = stF := by simpa using h
      subst hn
      subst hstF
      exact ⟨by omega, [], by simp, by simp [fifoWriteSizes]; omega⟩
    · rcases hw : cr50_wait_burst_status env dev chip TPM_STS_VALID st with ⟨wr, st1⟩
      rw [hw] at h
      rcases wr with _ | _ | _
      case timeout => exact absurd h (by simp)
      case fuelOut => exact absurd h (by simp)
      case ok s b =>
        dsimp only at h
        split at h <;> rename_i hexp
        · exact absurd h (by simp)
        · rcases hwr : iic_tpm_write env dev (TPM_DATA_FIFO chip.locality)
              ((buf.drop sent).take (min (b - 1) len)) st1 with ⟨wok, st2⟩
          rw [hwr] at h
          rcases wok with _ | _
          · exact absurd h (by simp)
          · have hchunk : ((buf.drop sent).take (min (b - 1) len)).length =
                min (b - 1) len := by
              simp only [List.length_take, List.length_drop]
              omega
            rcases iic_tpm_write_true env dev _ _ _ _ hwr with ⟨he2, _, _⟩
            rcases ih (sent + min (b - 1) len) (len - min (b - 1) len) st2 n stF h
              (by omega) with ⟨hn, l3, he3, hsum3⟩
            refine ⟨hn, ?_⟩
            have hsh := wait_shape env dev chip TPM_STS_VALID st
            rw [hw] at hsh
            dsimp only at hsh
            rcases hsh with ⟨l0, he0, hl0, _⟩
            refine ⟨l0 ++ [Event.writeEvt (TPM_DATA_FIFO chip.locality)
              ((buf.drop sent).take (min (b - 1) len)) true] ++ l3, ?_, ?_⟩
            · rw [he3, he2, he0]
              simp [List.append_assoc]
            · rw [fifoWriteSizes_append, fifoWriteSizes_append,
                fifoWriteSizes_reads hl0, fifoWriteSizes_fifo_evt]
              simp only [List.nil_append, List.sum_append, List.sum_cons, List.sum_nil]
              omega

theorem send_ok (env : Env) (dev : TpmDev) (chip : Chip) (buf : List Nat)
    (st : St) (n : Nat) (stF : St)
    (h : cr50_tis_i2c_send env dev chip buf st = (SendRes.ok n, stF)) :
    n = buf.length ∧
    (fifoWriteSizes chip.locality (newEvents st stF)).sum = buf.length := by
  rw [cr50_tis_i2c_send] at h
  rcases hr : readyLoop env dev chip (st.time + CR50_TIMEOUT_LONG_MS) 1001 st with ⟨rr, st1⟩
  rw [hr] at h
  rcases rr with _ | _ | _
  case timeoutErr => exact absurd h (by simp)
  case fuelOut => exact absurd h (by simp)
  case ready =>
    dsimp only at h
    rcases hx : xmitLoop env dev chip buf (buf.length + 1) 0 buf.length st1 with
      ⟨xr, sent, st2⟩
    rw [hx] at h
    rcases xr with _ | _ | _
    case abort => exact absurd h (by simp)
    case fuelOut => exact absurd h (by simp)
    case done =>
      dsimp only at h
      rcases hw : cr50_wait_burst_status env dev chip TPM_STS_VALID st2 with ⟨wr, st3⟩
      rw [hw] at h
      rcases wr with _ | _ | _
      case timeout => exact absurd h (by simp)
      case fuelOut => exact absurd h (by simp)
      case ok s b =>
        dsimp only at h
        split at h <;> rename_i hexp
        · exact absurd h (by simp)
        · rcases hg : iic_tpm_write env dev (TPM_STS chip.locality)
              [TPM_STS_GO, 0, 0, 0] st3 with ⟨gok, st4⟩
          rw [hg] at h
          rcases gok with _ | _
          · exact absurd h (by simp)
          · simp only [Prod.mk.injEq, SendRes.ok.injEq] at h
            obtain ⟨hn, hstF⟩ := h
            subst hstF
            rcases xmitLoop_done env dev chip buf _ 0 buf.length st1 sent st2 hx
              (by omega) with ⟨hsent, l2, he2, hsum2⟩
            refine ⟨by omega, ?_⟩
            rcases readyLoop_shape env dev chip (st.time + CR50_TIMEOUT_LONG_MS) 1001 st
              with ⟨l1, he1, hl1⟩
            rw [hr] at he1
            dsimp only at he1
            have hsh := wait_shape env dev chip TPM_STS_VALID st2
            rw [hw] at hsh
            dsimp only at hsh
            rcases hsh with ⟨l3, he3, hl3, _⟩
            rcases iic_tpm_write_true env dev _ _ _ _ hg with ⟨he4, _, _⟩
            have hall : st4.events = st.events ++ (l1 ++ l2 ++ l3 ++
                [Event.writeEvt (TPM_STS chip.locality) [TPM_STS_GO, 0, 0, 0] true]) := by
              rw [he4, he3, he2, he1]
              simp [List.append_assoc]
            rw [newEvents_eq hall]
            rw [fifoWriteSizes_append, fifoWriteSizes_append, fifoWriteSizes_append,
              fifoWriteSizes_reads hl3, fifoWriteSizes_sts hl1]
            have hgo : fifoWriteSizes chip.locality
                [Event.writeEvt (TPM_STS chip.locality) [TPM_STS_GO, 0, 0, 0] true] = [] := by
              simp [fifoWriteSizes, sts_ne_fifo chip.locality]
            rw [hgo]
            simp only [List.nil_append, List.append_nil, List.sum_append]
            omega

theorem stsByteAt_constEnv (s8 b idx loc : Nat) :
    stsByteAt (constEnv s8 b) idx loc = s8 % 256 := rfl

theorem burstAt_constEnv (s8 b idx loc : Nat) :
    burstAt (constEnv s8 b) idx loc = b % 256 := rfl

theorem wait_const (b : Nat) (hb0 : 0 < b) (hb63 : b ≤ 63) (st : St) :
    cr50_wait_burst_status (constEnv 0xC8 b) dev1 chip0 TPM_STS_VALID st =
      (WaitRes.ok 0xC8 b,
       ⟨st.time + CR50_TIMEOUT_SHORT_MS, st.ioCount + 1,
        st.events ++ [Event.readEvt (TPM_STS 0) 4 (some [0xC8, b, 0, 0])]⟩) := by
  have hbb : b % 256 = b := Nat.mod_eq_of_lt (by omega)
  have hq : stsQualify (constEnv 0xC8 b) st.ioCount chip0.locality TPM_STS_VALID := by
    refine ⟨?_, ?_, ?_⟩
    · rw [stsByteAt_constEnv]
      decide
    · rw [burstAt_constEnv, hbb]
      exact hb0
    · rw [burstAt_constEnv, hbb]
      exact hb63
  have h := wait_first (constEnv 0xC8 b) dev1 chip0 TPM_STS_VALID st (by decide) rfl rfl hq
  rw [h]
  simp only [stsByteAt, burstAt, constEnv, chip0, readBytes_four]
  norm_num [hbb]

theorem constEnv_write (s8 b reg : Nat) (data : List Nat) (st : St)
    (hlen : data.length ≤ CR50_MAX_BUFSIZE) :
    iic_tpm_write (constEnv s8 b) dev1 reg data st =
      (true, ⟨st.time + CR50_TIMEOUT_SHORT_MS, st.ioCount + 1,
        st.events ++ [Event.writeEvt reg data true]⟩) := by
  rw [iic_tpm_write]
  rw [if_neg (by decide), if_neg (by omega)]
  simp [constEnv, mdelay]

theorem chip0_locality : chip0.locality = 0 := rfl

theorem xmitLoop_const (b : Nat) (hb2 : 2 ≤ b) (hb63 : b ≤ 63) :
    ∀ L fuel sent (buf : List Nat) st, L < fuel → sent + L = buf.length →
      ∃ stF l, xmitLoop (constEnv 0xC8 b) dev1 chip0 buf fuel sent L st =
        (XmitRes.done, buf.length, stF) ∧ stF.events = st.events ++ l ∧
        ∀ fC, L ≤ fC → fifoWriteSizes 0 l = chunkSchedGo b fC L := by
  intro L
  induction L using Nat.strong_induction_on with
  | _ L ih =>
    intro fuel sent buf st hfuel hinv
    rcases fuel with _ | f
    · omega
    by_cases hL0 : L = 0
    · subst hL0
      have hs : sent = buf.length := by omega
      subst hs
      refine ⟨st, [], by rw [xmitLoop]; simp, by simp, ?_⟩
      intro fC hfC
      cases fC <;> simp [chunkSchedGo, fifoWriteSizes]
    · have hlim1 : 1 ≤ min (b - 1) L := by omega
      have hlimL : min (b - 1) L ≤ L := Nat.min_le_right _ _
      have hchunklen : ((buf.drop sent).take (min (b - 1) L)).length = min (b - 1) L := by
        simp only [List.length_take, List.length_drop]
        omega
      rcases ih (L - min (b - 1) L) (by omega) f (sent + min (b - 1) L) buf
          ⟨st.time + CR50_TIMEOUT_SHORT_MS + CR50_TIMEOUT_SHORT_MS, st.ioCount + 1 + 1,
           (st.events ++ [Event.readEvt (TPM_STS 0) 4 (some [0xC8, b, 0, 0])]) ++
             [Event.writeEvt (TPM_DATA_FIFO 0) ((buf.drop sent).take (min (b - 1) L)) true]⟩
          (by omega) (by omega) with ⟨stF, l2, hx, hev2, hsz2⟩
      refine ⟨stF, [Event.readEvt (TPM_STS 0) 4 (some [0xC8, b, 0, 0])] ++
        [Event.writeEvt (TPM_DATA_FIFO 0) ((buf.drop sent).take (min (b - 1) L)) true] ++
        l2, ?_, ?_, ?_⟩
      · rw [xmitLoop]
        rw [if_neg hL0]
        rw [wait_const b (by omega) hb63 st]
        dsimp only
        simp only [chip0_locality]
        rw [if_neg (by
          rintro ⟨_, hc⟩
          exact absurd hc (by decide))]
        rw [constEnv_write 0xC8 b (TPM_DATA_FIFO 0)
          ((buf.drop sent).take (min (b - 1) L)) _
          (by rw [hchunklen]; simp only [CR50_MAX_BUFSIZE]; omega)]
        dsimp only
        exact hx
      · rw [hev2]
        simp [List.append_assoc]
      · intro fC hfC
        rcases fC with _ | fCp
        · omega
        · rw [chunkSchedGo]
          rw [if_neg hL0]
          rw [fifoWriteSizes_append, fifoWriteSizes_append]
          rw [fifoWriteSizes_reads
            (show ∀ e ∈ [Event.readEvt (TPM_STS 0) 4 (some [0xC8, b, 0, 0])],
              ∃ res, e = Event.readEvt (TPM_STS 0) 4 res from by
                intro e he
                simp at he
                exact ⟨_, he⟩)]
          rw [fifoWriteSizes_fifo_evt]
          rw [hsz2 fCp (by omega), hchunklen]
          simp

/-- The chip behaviour of the C5 witness: every operation succeeds, status
reads report ready, valid, data-expect and burst 3 until the transfer of 5
bytes is complete (operation index 7), after which data-expect is clear. -/
def env5 : Env :=
  { addrWriteOk := fun _ _ => true
    readOk := fun _ _ _ => true
    writeOk := fun _ _ _ => true
    readByte := fun idx _ off =>
      if off = 0 then (if idx = 7 then 0xC0 else 0xC8)
      else if off = 1 then 3 else 0 }

/-- C5 (amended): a successful send always reports `sent` equal to the
command length, and the FIFO chunks it wrote sum to exactly that length;
and for every constant burst count `b` in `[2, 63]` the transmit loop
completes, writing exactly the chunks `min(b-1, remaining)` of the
schedule `chunkSched`.  (Burst count 1, although accepted as valid, makes
the transmit loop write empty chunks forever; see the counterexample.) -/
theorem C5_send_chunking :
    (∀ env dev chip (buf : List Nat) st n stF,
      cr50_tis_i2c_send env dev chip buf st = (SendRes.ok n, stF) →
      n = buf.length ∧
      (fifoWriteSizes chip.locality (newEvents st stF)).sum = buf.length) ∧
    (∀ b (buf : List Nat) st, 2 ≤ b → b ≤ 63 →
      ∃ stF, xmitLoop (constEnv 0xC8 b) dev1 chip0 buf (buf.length + 1) 0 buf.length st =
        (XmitRes.done, buf.length, stF) ∧
        fifoWriteSizes 0 (newEvents st stF) = chunkSched b buf.length) := by
  refine ⟨send_ok, ?_⟩
  intro b buf st hb2 hb63
  rcases xmitLoop_const b hb2 hb63 buf.length (buf.length + 1) 0 buf st (by omega)
    (by omega) with ⟨stF, l, hx, hev, hsz⟩
  refine ⟨stF, hx, ?_⟩
  rw [newEvents_eq hev]
  exact hsz buf.length (Nat.le_refl _)

/-- C5 witness: a concrete send of 5 bytes at burst 3 succeeds with
`sent = 5` and chunks summing to 5, and the schedule at burst 3 is
`[2, 2, 1]`. -/
theorem C5_send_chunking_witness :
    ((5 : Nat) = 5 ∧ (fifoWriteSizes 0 (newEvents st0
      (cr50_tis_i2c_send env5 dev1 chip0 [1, 2, 3, 4, 5] st0).2)).sum = 5) ∧
    (∃ stF, xmitLoop (constEnv 0xC8 3) dev1 chip0 [1, 2, 3, 4, 5] 6 0 5 st0 =
      (XmitRes.done, 5, stF) ∧
      fifoWriteSizes 0 (newEvents st0 stF) = chunkSched 3 5) := by
  constructor
  · exact C5_send_chunking.1 env5 dev1 chip0 [1, 2, 3, 4, 5] st0 5
      (cr50_tis_i2c_send env5 dev1 chip0 [1, 2, 3, 4, 5] st0).2 (by decide)
  · exact C5_send_chunking.2 3 [1, 2, 3, 4, 5] st0 (by omega) (by omega)

/-- At burst count 1 the transmit loop makes no progress: whatever fuel
the model grants, it runs out with nothing sent — the source loop, which
has no bound, never terminates there. -/
theorem xmitLoop_burst1_stuck : ∀ fuel st,
    (xmitLoop (constEnv 0xC8 1) dev1 chip0 [7] fuel 0 1 st).1 = XmitRes.fuelOut := by
  intro fuel
  induction fuel with
  | zero => intro st; rfl
  | succ f ih =>
    intro st
    rw [xmitLoop]
    rw [if_neg (by omega)]
    rw [wait_const 1 (by omega) (by omega) st]
    dsimp only
    simp only [chip0_locality]
    rw [if_neg (by rintro ⟨hc, _⟩; omega)]
    rw [constEnv_write 0xC8 1 (TPM_DATA_FIFO 0) _ _ (by simp [CR50_MAX_BUFSIZE])]
    dsimp only
    simpa using ih _

/-- C5 counterexample: with burst count 1 (inside the claimed valid range
[1, 63]) and a 1-byte command, send never completes — the model's fuel
runs out with no FIFO payload bytes written, so the chunks do not sum to
the command length. -/
theorem C5_send_counterexample :
    (cr50_tis_i2c_send (constEnv 0xC8 1) dev1 chip0 [7] st0).1 = SendRes.fuelOut ∧
    (fifoWriteSizes 0 (newEvents st0
      (cr50_tis_i2c_send (constEnv 0xC8 1) dev1 chip0 [7] st0).2)).sum = 0 ∧
    (0 : Nat) ≠ 1 := by
  decide

/-! ### C9: vendor init -/

/-- The identity bytes of a genuine cr50: little-endian `0x00281ae0`. -/
def goodVid : Nat → Nat := fun off =>
  if off = 0 then 0xe0 else if off = 1 then 0x1a else if off = 2 then 0x28 else 0

/-- A bus answering the identity register with `v` and every other
register with `0xA0` (locality owned and valid); every operation
succeeds. -/
def env9 (v : Nat → Nat) : Env :=
  { addrWriteOk := fun _ _ => true
    readOk := fun _ _ _ => true
    writeOk := fun _ _ _ => true
    readByte := fun _ reg off => if reg = TPM_DID_VID 0 then v off else 0xA0 }

/-- C9: with a non-zero device address, `tpm_vendor_init` succeeds when the
identity register returns the expected constant, leaving locality 0 owned
(no release write was issued) and the chip marked open; with a mismatched
identity it fails and the last bus operation is the forced release write
of the active-locality bit to the locality-0 access register. -/
theorem C9_vendor_init (a : Nat) (ha : a ≠ 0) :
    ((tpm_vendor_init (env9 goodVid) dev1 chip0 0 a st0).1 = true ∧
     (tpm_vendor_init (env9 goodVid) dev1 chip0 0 a st0).2.2.1 =
       { locality := 0, is_open := 1 } ∧
     writesTo (TPM_ACCESS 0)
       (tpm_vendor_init (env9 goodVid) dev1 chip0 0 a st0).2.2.2.events = 0) ∧
    ((tpm_vendor_init (env9 (fun _ => 0)) dev1 chip0 0 a st0).1 = false ∧
     ∃ bflag, (tpm_vendor_init (env9 (fun _ => 0)) dev1 chip0 0 a st0).2.2.2.events.getLast? =
       some (Event.writeEvt (TPM_ACCESS 0) [TPM_ACCESS_ACTIVE_LOCALITY] bflag)) := by
  constructor
  · refine ⟨?_, ?_, ?_⟩ <;>
      simp [tpm_vendor_init, ha, request_locality, check_locality, release_locality,
        iic_tpm_read, iic_tpm_write, readBytes_one, readBytes_four, readBytes, mdelay,
        env9, goodVid, st0, chip0, read_le32, CR50_DID_VID, writesTo, TPM_ACCESS,
        TPM_DID_VID, TPM_ACCESS_ACTIVE_LOCALITY, TPM_ACCESS_VALID,
        List.range_succ, CR50_MAX_BUFSIZE, CR50_TIMEOUT_SHORT_MS]
  · refine ⟨?_, ?_⟩ <;>
      simp [tpm_vendor_init, ha, request_locality, check_locality, release_locality,
        iic_tpm_read, iic_tpm_write, readBytes_one, readBytes_four, readBytes, mdelay,
        env9, st0, chip0, read_le32, CR50_DID_VID, writesTo, TPM_ACCESS,
        TPM_DID_VID, TPM_ACCESS_ACTIVE_LOCALITY, TPM_ACCESS_VALID,
        TPM_ACCESS_REQUEST_PENDING, List.range_succ, CR50_MAX_BUFSIZE,
        CR50_TIMEOUT_SHORT_MS]

/-- C9 witness: the init scenario at the spec's device address 0x50. -/
theorem C9_vendor_init_witness :
    ((tpm_vendor_init (env9 goodVid) dev1 chip0 0 0x50 st0).1 = true ∧
     (tpm_vendor_init (env9 goodVid) dev1 chip0 0 0x50 st0).2.2.1 =
       { locality := 0, is_open := 1 } ∧
     writesTo (TPM_ACCESS 0)
       (tpm_vendor_init (env9 goodVid) dev1 chip0 0 0x50 st0).2.2.2.events = 0) ∧
    ((tpm_vendor_init (env9 (fun _ => 0)) dev1 chip0 0 0x50 st0).1 = false ∧
     ∃ bflag, (tpm_vendor_init (env9 (fun _ => 0)) dev1 chip0 0 0x50 st0).2.2.2.events.getLast? =
       some (Event.writeEvt (TPM_ACCESS 0) [TPM_ACCESS_ACTIVE_LOCALITY] bflag)) :=
  C9_vendor_init 0x50 (by decide)

/-! ### C10: a failed status read reads as 0 -/

theorem readyWriteCount_append (loc : Nat) (a b : List Event) :
    readyWriteCount loc (a ++ b) = readyWriteCount loc a + readyWriteCount loc b := by
  simp [readyWriteCount]

theorem readyWriteCount_reads {loc : Nat} {l : List Event}
    (h : ∀ e ∈ l, ∃ res, e = Event.readEvt (TPM_STS loc) 4 res) :
    readyWriteCount loc l = 0 := by
  rw [readyWriteCount, List.length_eq_zero, List.filter_eq_nil_iff]
  intro e he
  rcases h e he with ⟨res, rfl⟩
  simp [isCancel]

theorem readyWriteCount_cancel (loc : Nat) (b : Bool) :
    readyWriteCount loc
      [Event.writeEvt (TPM_STS loc) [TPM_STS_COMMAND_READY, 0, 0, 0] b] = 1 := by
  simp [readyWriteCount, isCancel]

theorem readyLoop_count (env : Env) (dev : TpmDev) (chip : Chip) (dl : Nat)
    (ha : dev.addr ≠ 0) :
    ∀ f st st', readyLoop env dev chip dl (f + 1) st = (ReadyRes.timeoutErr, st') →
      st'.time ≤ st.time + 2 + 6 * readyWriteCount chip.locality (newEvents st st') := by
  intro f
  induction f with
  | zero =>
    intro st st' h
    rcases hs : cr50_tis_i2c_status env dev chip st with ⟨s, st1⟩
    have hsh := cr50_status_shape env dev chip st
    rw [hs] at hsh
    dsimp only at hsh
    rcases hsh with ⟨l1, he1, hl1, _, ht1⟩
    rw [readyLoop, hs] at h
    dsimp only at h
    split at h
    · exact absurd h (by simp)
    · split at h
      · obtain ⟨_, hst⟩ : ReadyRes.timeoutErr = ReadyRes.timeoutErr ∧ st1 = st' := by
          simpa using h
        subst hst
        rw [newEvents_eq he1, readyWriteCount_reads hl1]
        simp only [CR50_TIMEOUT_SHORT_MS] at ht1
        omega
      · exact absurd h (by simp [readyLoop])
  | succ f ih =>
    intro st st' h
    rcases hs : cr50_tis_i2c_status env dev chip st with ⟨s, st1⟩
    have hsh := cr50_status_shape env dev chip st
    rw [hs] at hsh
    dsimp only at hsh
    rcases hsh with ⟨l1, he1, hl1, _, ht1⟩
    rw [readyLoop, hs] at h
    dsimp only at h
    split at h
    · exact absurd h (by simp)
    · split at h
      · obtain ⟨_, hst⟩ : ReadyRes.timeoutErr = ReadyRes.timeoutErr ∧ st1 = st' := by
          simpa using h
        subst hst
        rw [newEvents_eq he1, readyWriteCount_reads hl1]
        simp only [CR50_TIMEOUT_SHORT_MS] at ht1
        omega
      · rcases cr50_ready_step env dev chip st1 ha with ⟨bb, he2, _, _, ht2⟩
        have hrec := ih (cr50_tis_i2c_ready env dev chip st1) st' h
        rcases readyLoop_shape env dev chip dl (f + 1)
            (cr50_tis_i2c_ready env dev chip st1) with ⟨l3, he3, hl3⟩
        rw [h] at he3
        dsimp only at he3
        have hall : st'.events = st.events ++ (l1 ++
            ([Event.writeEvt (TPM_STS chip.locality)
              [TPM_STS_COMMAND_READY, 0, 0, 0] bb] ++ l3)) := by
          rw [he3, he2, he1]
          simp [List.append_assoc]
        rw [newEvents_eq hall]
        rw [newEvents_eq he3] at hrec
        rw [readyWriteCount_append, readyWriteCount_append,
          readyWriteCount_reads hl1, readyWriteCount_cancel]
        simp only [CR50_TIMEOUT_SHORT_MS] at ht1 ht2
        omega

/-- C10: a failed 4-byte status-register read makes `cr50_tis_i2c_status`
return 0, all bits clear; consequently, a persistent bus failure is
indistinguishable from not-ready in send's command-ready wait: send keeps
issuing ready writes (at least 333 of them within the bound) and fails
with the 2000 ms command-ready timeout instead of an immediate I/O
error. -/
theorem C10_status_failure :
    (∀ env dev chip st,
      dev.addr = 0 ∨ env.addrWriteOk st.ioCount (TPM_STS chip.locality) = false ∨
        env.readOk st.ioCount (TPM_STS chip.locality) 4 = false →
      (cr50_tis_i2c_status env dev chip st).1 = 0) ∧
    (∀ env dev chip (buf : List Nat) st, dev.addr ≠ 0 →
      (∀ idx, env.addrWriteOk idx (TPM_STS chip.locality) = false ∨
        env.readOk idx (TPM_STS chip.locality) 4 = false) →
      ∃ st1, cr50_tis_i2c_send env dev chip buf st = (SendRes.err, st1) ∧
        st.time + 2000 ≤ st1.time ∧
        333 ≤ readyWriteCount chip.locality (newEvents st st1)) := by
  constructor
  · intro env dev chip st hfail
    by_cases ha : dev.addr = 0
    · rw [cr50_status_addr0 env dev chip st ha]
    · rcases hfail with ha0 | hf | hf
      · exact absurd ha0 ha
      · rw [cr50_tis_i2c_status, iic_tpm_read_awfail env dev _ 4 st ha hf]
      · rcases h1 : env.addrWriteOk st.ioCount (TPM_STS chip.locality) with _ | _
        · rw [cr50_tis_i2c_status, iic_tpm_read_awfail env dev _ 4 st ha h1]
        · rw [cr50_tis_i2c_status, iic_tpm_read_readfail env dev _ 4 st ha h1 hf]
  · intro env dev chip buf st ha hfail
    have hn : ∀ idx, ¬ stsReadyAt env idx chip.locality := by
      rintro idx ⟨hw, hr, _⟩
      rcases hfail idx with hf | hf
      · rw [hf] at hw
        exact absurd hw (by simp)
      · rw [hf] at hr
        exact absurd hr (by simp)
    have h1001 : (1001 : Nat) = 1000 + 1 := rfl
    rcases readyLoop_never env dev chip (st.time + CR50_TIMEOUT_LONG_MS) hn 1000 st
      (by simp [CR50_TIMEOUT_LONG_MS]) with ⟨st1, hl, ht, _⟩
    have hcnt := readyLoop_count env dev chip (st.time + CR50_TIMEOUT_LONG_MS) ha
      1000 st st1 hl
    refine ⟨st1, ?_, by simpa [CR50_TIMEOUT_LONG_MS] using ht, ?_⟩
    · rw [cr50_tis_i2c_send, h1001, hl]
    · simp only [CR50_TIMEOUT_LONG_MS] at ht
      omega

/-! ### C2: failure branches of send and the compensating cancel -/

theorem waitLoop_addr0_events (env : Env) (dev : TpmDev) (chip : Chip)
    (mask dl : Nat) (ha : dev.addr = 0) :
    ∀ fuel st, (waitLoop env dev chip mask dl fuel st).2.events = st.events := by
  intro fuel
  induction fuel with
  | zero => intro st; rfl
  | succ f ih =>
    intro st
    rw [waitLoop]
    split
    · rfl
    · rw [iic_tpm_read_addr0 env dev _ 4 st ha]
      exact ih _

theorem wait_addr0_events (env : Env) (dev : TpmDev) (chip : Chip)
    (mask : Nat) (st : St) (ha : dev.addr = 0) :
    (cr50_wait_burst_status env dev chip mask st).2.events = st.events :=
  waitLoop_addr0_events env dev chip mask _ ha 1001 st

theorem readyLoop_addr0_events (env : Env) (dev : TpmDev) (chip : Chip)
    (dl : Nat) (ha : dev.addr = 0) :
    ∀ fuel st, (readyLoop env dev chip dl fuel st).2.events = st.events := by
  intro fuel
  induction fuel with
  | zero => intro st; rfl
  | succ f ih =>
    intro st
    rw [readyLoop, cr50_status_addr0 env dev chip st ha]
    dsimp only
    rw [if_neg (by decide)]
    split
    · rfl
    · rw [cr50_ready_addr0 env dev chip st ha]
      exact ih _

theorem sendAbort_addr0 (env : Env) (dev : TpmDev) (chip : Chip) (st : St)
    (ha : dev.addr = 0) : sendAbort env dev chip st = st := by
  rw [sendAbort, cr50_status_addr0 env dev chip st ha]
  dsimp only
  rw [if_neg (by decide)]

theorem xmitLoop_addr0_events (env : Env) (dev : TpmDev) (chip : Chip)
    (buf : List Nat) (ha : dev.addr = 0) :
    ∀ fuel sent len st, (xmitLoop env dev chip buf fuel sent len st).2.2.events =
      st.events := by
  intro fuel
  induction fuel with
  | zero => intro sent len st; rfl
  | succ f ih =>
    intro sent len st
    rw [xmitLoop]
    split
    · rfl
    · rcases hw : cr50_wait_burst_status env dev chip TPM_STS_VALID st with ⟨wr, st1⟩
      have hev1 := wait_addr0_events env dev chip TPM_STS_VALID st ha
      rw [hw] at hev1
      dsimp only at hev1
      rcases wr with _ | _ | _
      case timeout => exact hev1
      case fuelOut => exact hev1
      case ok s b =>
        dsimp only
        split
        · exact hev1
        · rw [iic_tpm_write_addr0 env dev _ _ st1 ha]
          dsimp only
          exact hev1

theorem send_addr0_events (env : Env) (dev : TpmDev) (chip : Chip)
    (buf : List Nat) (st : St) (ha : dev.addr = 0) :
    (cr50_tis_i2c_send env dev chip buf st).2.events = st.events := by
  rw [cr50_tis_i2c_send]
  rcases hr : readyLoop env dev chip (st.time + CR50_TIMEOUT_LONG_MS) 1001 st with ⟨rr, st1⟩
  have hev1 := readyLoop_addr0_events env dev chip (st.time + CR50_TIMEOUT_LONG_MS) ha 1001 st
  rw [hr] at hev1
  dsimp only at hev1
  rcases rr with _ | _ | _
  case timeoutErr => exact hev1
  case fuelOut => exact hev1
  case ready =>
    dsimp only
    rcases hx : xmitLoop env dev chip buf (buf.length + 1) 0 buf.length st1 with
      ⟨xr, sent, st2⟩
    have hev2 := xmitLoop_addr0_events env dev chip buf ha (buf.length + 1) 0 buf.length st1
    rw [hx] at hev2
    dsimp only at hev2
    rcases xr with _ | _ | _
    case fuelOut => rw [hev2]; exact hev1
    case abort =>
      dsimp only
      rw [sendAbort_addr0 env dev chip st2 ha, hev2]
      exact hev1
    case done =>
      dsimp only
      rcases hw : cr50_wait_burst_status env dev chip TPM_STS_VALID st2 with ⟨wr, st3⟩
      have hev3 := wait_addr0_events env dev chip TPM_STS_VALID st2 ha
      rw [hw] at hev3
      dsimp only at hev3
      rcases wr with _ | _ | _
      case timeout =>
        dsimp only
        rw [sendAbort_addr0 env dev chip st3 ha, hev3, hev2]
        exact hev1
      case fuelOut => rw [hev3, hev2]; exact hev1
      case ok s b =>
        dsimp only
        split
        · rw [sendAbort_addr0 env dev chip st3 ha, hev3, hev2]
          exact hev1
        · rw [iic_tpm_write_addr0 env dev _ _ st3 ha]
          dsimp only
          rw [sendAbort_addr0 env dev chip st3 ha, hev3, hev2]
          exact hev1

theorem xmitLoop_events (env : Env) (dev : TpmDev) (chip : Chip)
    (buf : List Nat) :
    ∀ fuel sent len st, ∃ l,
      (xmitLoop env dev chip buf fuel sent len st).2.2.events = st.events ++ l := by
  intro fuel
  induction fuel with
  | zero => intro sent len st; exact ⟨[], by simp [xmitLoop]⟩
  | succ f ih =>
    intro sent len st
    rw [xmitLoop]
    split
    · exact ⟨[], by simp⟩
    · rcases hw : cr50_wait_burst_status env dev chip TPM_STS_VALID st with ⟨wr, st1⟩
      have hsh := wait_shape env dev chip TPM_STS_VALID st
      rw [hw] at hsh
      dsimp only at hsh
      rcases hsh with ⟨l1, he1, _, _⟩
      rcases wr with _ | _ | _
      case timeout => exact ⟨l1, he1⟩
      case fuelOut => exact ⟨l1, he1⟩
      case ok s b =>
        dsimp only
        split
        · exact ⟨l1, he1⟩
        · rcases hwr : iic_tpm_write env dev (TPM_DATA_FIFO chip.locality)
              ((buf.drop sent).take (min (b - 1) len)) st1 with ⟨wok, st2⟩
          have hws := iic_tpm_write_shape env dev (TPM_DATA_FIFO chip.locality)
            ((buf.drop sent).take (min (b - 1) len)) st1
          rw [hwr] at hws
          dsimp only at hws
          rcases hws with ⟨l2, he2, _, _⟩
          rcases wok with _ | _
          · refine ⟨l1 ++ l2, ?_⟩
            rw [he2, he1]
            simp [List.append_assoc]
          · rcases ih (sent + min (b - 1) len) (len - min (b - 1) len) st2 with ⟨l3, he3⟩
            refine ⟨l1 ++ l2 ++ l3, ?_⟩
            rw [he3, he2, he1]
            simp [List.append_assoc]

theorem lastStsObs_singleton {loc : Nat} {e : Event} (h : isStsRead loc e = true) :
    lastStsObs loc [e] = stsObs e := by
  simp [lastStsObs, h]

theorem sendAbort_c2 (env : Env) (dev : TpmDev) (chip : Chip) (st : St)
    (ha : dev.addr ≠ 0) :
    ∃ l, (sendAbort env dev chip st).events = st.events ++ l ∧
      ∀ acc, lastStsObs chip.locality (acc ++ l) &&& TPM_STS_COMMAND_READY ≠ 0 →
        ∃ bb, (acc ++ l).getLast? =
          some (Event.writeEvt (TPM_STS chip.locality)
            [TPM_STS_COMMAND_READY, 0, 0, 0] bb) := by
  rcases hs : cr50_tis_i2c_status env dev chip st with ⟨s, st1⟩
  rcases cr50_status_step env dev chip st ha with ⟨e, t, hse, hobs, hst1, _, _⟩
  rw [hs] at hobs hst1
  dsimp only at hobs hst1
  rw [sendAbort, hs]
  dsimp only
  split
  · rename_i hready
    rcases cr50_ready_step env dev chip st1 ha with ⟨bb, hev2, _, _, _⟩
    refine ⟨[e] ++ [Event.writeEvt (TPM_STS chip.locality)
      [TPM_STS_COMMAND_READY, 0, 0, 0] bb], ?_, ?_⟩
    · rw [hev2, hst1]
      simp [List.append_assoc]
    · intro acc _
      refine ⟨bb, ?_⟩
      rw [show acc ++ ([e] ++ [Event.writeEvt (TPM_STS chip.locality)
          [TPM_STS_COMMAND_READY, 0, 0, 0] bb]) =
        (acc ++ [e]) ++ [Event.writeEvt (TPM_STS chip.locality)
          [TPM_STS_COMMAND_READY, 0, 0, 0] bb] by simp [List.append_assoc]]
      exact List.getLast?_concat _
  · rename_i hnready
    refine ⟨[e], by rw [hst1], ?_⟩
    intro acc hc
    have hlast : lastStsObs chip.locality (acc ++ [e]) = stsObs e := by
      rw [lastStsObs_append_of_any (by simp [hse])]
      exact lastStsObs_singleton hse
    rw [hlast, hobs] at hc
    exact absurd hc hnready

theorem readyLoop_c2 (env : Env) (dev : TpmDev) (chip : Chip) (dl : Nat)
    (ha : dev.addr ≠ 0) :
    ∀ fuel st st', readyLoop env dev chip dl fuel st = (ReadyRes.timeoutErr, st') →
      ∃ l, st'.events = st.events ++ l ∧ l.any (isStsRead chip.locality) = true ∧
        lastStsObs chip.locality l &&& TPM_STS_COMMAND_READY = 0 := by
  intro fuel
  induction fuel with
  | zero =>
    intro st st' h
    simp [readyLoop] at h
  | succ f ih =>
    intro st st' h
    rcases hs : cr50_tis_i2c_status env dev chip st with ⟨s, st1⟩
    rcases cr50_status_step env dev chip st ha with ⟨e, t, hse, hobs, hst1, _, _⟩
    rw [hs] at hobs hst1
    dsimp only at hobs hst1
    rw [readyLoop, hs] at h
    dsimp only at h
    split at h <;> rename_i hready
    · exact absurd h (by simp)
    · split at h <;> rename_i hdl
      · obtain ⟨_, hst⟩ : ReadyRes.timeoutErr = ReadyRes.timeoutErr ∧ st1 = st' := by
          simpa using h
        subst hst
        refine ⟨[e], by rw [hst1], by simp [hse], ?_⟩
        rw [lastStsObs_singleton hse, hobs]
        simpa using hready
      · rcases cr50_ready_step env dev chip st1 ha with ⟨bb, hev2, _, _, _⟩
        rcases ih (cr50_tis_i2c_ready env dev chip st1) st' h with ⟨l3, he3, hany3, hobs3⟩
        refine ⟨[e] ++ [Event.writeEvt (TPM_STS chip.locality)
          [TPM_STS_COMMAND_READY, 0, 0, 0] bb] ++ l3, ?_, ?_, ?_⟩
        · rw [he3, hev2, hst1]
          simp [List.append_assoc]
        · simp [hse]
        · rw [lastStsObs_append_of_any hany3]
          exact hobs3

/-- C2: whenever `cr50_tis_i2c_send` returns the error, either the status
byte the driver last observed (the latest status-register read of the
call, with a failed read observing 0) shows command-ready clear, or the
call's final bus operation is the compensating cancel: the 4-byte
command-ready write to the status register. -/
theorem C2_send_cancel (env : Env) (dev : TpmDev) (chip : Chip)
    (buf : List Nat) (st st' : St)
    (h : cr50_tis_i2c_send env dev chip buf st = (SendRes.err, st'))
    (hobs : lastStsObs chip.locality (newEvents st st') &&&
      TPM_STS_COMMAND_READY ≠ 0) :
    ∃ bb, (newEvents st st').getLast? =
      some (Event.writeEvt (TPM_STS chip.locality)
        [TPM_STS_COMMAND_READY, 0, 0, 0] bb) := by
  by_cases ha : dev.addr = 0
  · have hev := send_addr0_events env dev chip buf st ha
    rw [h] at hev
    dsimp only at hev
    have hne : newEvents st st' = [] := by
      rw [newEvents, hev]
      simp
    rw [hne] at hobs
    exact absurd hobs (by simp [lastStsObs])
  · rw [cr50_tis_i2c_send] at h
    rcases hr : readyLoop env dev chip (st.time + CR50_TIMEOUT_LONG_MS) 1001 st with
      ⟨rr, st1⟩
    rw [hr] at h
    rcases rr with _ | _ | _
    · -- ready
      dsimp only at h
      rcases readyLoop_shape env dev chip (st.time + CR50_TIMEOUT_LONG_MS) 1001 st with
        ⟨l1, he1, _⟩
      rw [hr] at he1
      dsimp only at he1
      rcases hx : xmitLoop env dev chip buf (buf.length + 1) 0 buf.length st1 with
        ⟨xr, sent, st2⟩
      rw [hx] at h
      rcases xmitLoop_events env dev chip buf (buf.length + 1) 0 buf.length st1 with
        ⟨l2, he2⟩
      rw [hx] at he2
      dsimp only at he2
      rcases xr with _ | _ | _
      · -- done
        dsimp only at h
        rcases hw : cr50_wait_burst_status env dev chip TPM_STS_VALID st2 with ⟨wr, st3⟩
        rw [hw] at h
        have hsh3 := wait_shape env dev chip TPM_STS_VALID st2
        rw [hw] at hsh3
        dsimp only at hsh3
        rcases hsh3 with ⟨l3, he3, _, _⟩
        rcases wr with _ | _ | _
        · -- ok s b
          rename_i s b
          dsimp only at h
          split at h <;> rename_i hexp
          · obtain ⟨_, hst⟩ : SendRes.err = SendRes.err ∧
                sendAbort env dev chip st3 = st' := by simpa using h
            rcases sendAbort_c2 env dev chip st3 ha with ⟨la, hea, hprop⟩
            have hall : st'.events = st.events ++ ((l1 ++ l2 ++ l3) ++ la) := by
              rw [← hst, hea, he3, he2, he1]
              simp [List.append_assoc]
            rw [newEvents_eq hall] at hobs ⊢
            exact hprop (l1 ++ l2 ++ l3) hobs
          · rcases hg : iic_tpm_write env dev (TPM_STS chip.locality)
                [TPM_STS_GO, 0, 0, 0] st3 with ⟨gok, st4⟩
            rw [hg] at h
            have hws := iic_tpm_write_shape env dev (TPM_STS chip.locality)
              [TPM_STS_GO, 0, 0, 0] st3
            rw [hg] at hws
            dsimp only at hws
            rcases hws with ⟨l4, he4, _, _⟩
            rcases gok with _ | _
            · obtain ⟨_, hst⟩ : SendRes.err = SendRes.err ∧
                  sendAbort env dev chip st4 = st' := by simpa using h
              rcases sendAbort_c2 env dev chip st4 ha with ⟨la, hea, hprop⟩
              have hall : st'.events = st.events ++ ((l1 ++ l2 ++ l3 ++ l4) ++ la) := by
                rw [← hst, hea, he4, he3, he2, he1]
                simp [List.append_assoc]
              rw [newEvents_eq hall] at hobs ⊢
              exact hprop (l1 ++ l2 ++ l3 ++ l4) hobs
            · exact absurd h (by simp)
        · -- timeout
          obtain ⟨_, hst⟩ : SendRes.err = SendRes.err ∧
              sendAbort env dev chip st3 = st' := by simpa using h
          rcases sendAbort_c2 env dev chip st3 ha with ⟨la, hea, hprop⟩
          have hall : st'.events = st.events ++ ((l1 ++ l2 ++ l3) ++ la) := by
            rw [← hst, hea, he3, he2, he1]
            simp [List.append_assoc]
          rw [newEvents_eq hall] at hobs ⊢
          exact hprop (l1 ++ l2 ++ l3) hobs
        · -- fuelOut
          exact absurd h (by simp)
      · -- abort
        obtain ⟨_, hst⟩ : SendRes.err = SendRes.err ∧ sendAbort env dev chip st2 = st' := by
          simpa using h
        rcases sendAbort_c2 env dev chip st2 ha with ⟨la, hea, hprop⟩
        have hall : st'.events = st.events ++ ((l1 ++ l2) ++ la) := by
          rw [← hst, hea, he2, he1]
          simp [List.append_assoc]
        rw [newEvents_eq hall] at hobs ⊢
        exact hprop (l1 ++ l2) hobs
      · -- fuelOut
        exact absurd h (by simp)
    · -- timeoutErr
      obtain ⟨_, hst⟩ : SendRes.err = SendRes.err ∧ st1 = st' := by simpa using h
      subst hst
      rcases readyLoop_c2 env dev chip (st.time + CR50_TIMEOUT_LONG_MS) ha 1001 st st1 hr
        with ⟨l, he, _, hclear⟩
      rw [newEvents_eq he] at hobs
      rw [hclear] at hobs
      exact absurd rfl hobs
    · -- fuelOut
      exact absurd h (by simp)

/-- The chip behaviour of the C2 witness: status reads show ready, valid
and data-expect with burst 3, except that the second transfer wait (index
3) and the abort status read (index 4) drop data-expect while still
showing command-ready, making send abort mid-transfer and cancel. -/
def env2 : Env :=
  { addrWriteOk := fun _ _ => true
    readOk := fun _ _ _ => true
    writeOk := fun _ _ _ => true
    readByte := fun idx _ off =>
      if off = 0 then (if idx = 3 ∨ idx = 4 then 0xC0 else 0xC8)
      else if off = 1 then 3 else 0 }

/-- C2 witness: a concrete failed send whose last observed status shows
command-ready ends with the cancel write. -/
theorem C2_send_cancel_witness :
    ∃ bb, (newEvents st0 (cr50_tis_i2c_send env2 dev1 chip0 [9, 9, 9] st0).2).getLast? =
      some (Event.writeEvt (TPM_STS 0) [TPM_STS_COMMAND_READY, 0, 0, 0] bb) :=
  C2_send_cancel env2 dev1 chip0 [9, 9, 9] st0
    (cr50_tis_i2c_send env2 dev1 chip0 [9, 9, 9] st0).2 (by decide) (by decide)

/-- C10 witness: with every bus operation failing, the status operation
reads 0 and a send runs into the command-ready timeout with hundreds of
ready writes. -/
theorem C10_status_failure_witness :
    (cr50_tis_i2c_status envDead dev1 chip0 st0).1 = 0 ∧
    (∃ st1, cr50_tis_i2c_send envDead dev1 chip0 [1, 2, 3] st0 = (SendRes.err, st1) ∧
      st0.time + 2000 ≤ st1.time ∧
      333 ≤ readyWriteCount chip0.locality (newEvents st0 st1)) :=
  ⟨C10_status_failure.1 envDead dev1 chip0 st0 (Or.inr (Or.inl rfl)),
   C10_status_failure.2 envDead dev1 chip0 [1, 2, 3] st0 (by decide)
     (fun _ => Or.inl rfl)⟩

end Cr50
